import Mathlib

/-!
Verification development for the tyzo local content engine (`localApi.ts`).

We shallowly embed the data model and the operations of `LocalApi`:
JSON documents become an inductive `JValue`, the content directory becomes an
explicit `ContentState` (entry files, existing directories, asset files),
fallible operations return `Except`/`Option`, and JavaScript machine behaviour
(truthiness, `String(...)` conversion, stable `Array.prototype.sort`,
`??` defaulting) is embedded explicitly.
-/

namespace Tyzo

/-- JSON values, as produced by `JSON.parse`.  JavaScript numbers are modelled
as integers (the entries exercised by the spec use integral numbers; no
floating point behaviour is relied upon).  `JSON.parse` never produces `Date`
objects or `undefined`, so neither appears. -/
inductive JValue where
  | null : JValue
  | bool : Bool → JValue
  | num : Int → JValue
  | str : String → JValue
  | arr : List JValue → JValue
  | obj : List (String × JValue) → JValue

/-! Decidable equality for `JValue`, by structural mutual recursion with the
nested lists (the automatic deriving does not handle the nesting, and a
well-founded definition would not reduce under `decide`). -/

mutual

def decEqJ : (a b : JValue) → Decidable (a = b)
  | .null, .null => isTrue rfl
  | .bool x, .bool y =>
    if h : x = y then isTrue (by rw [h]) else isFalse (fun e => h (JValue.bool.inj e))
  | .num x, .num y =>
    if h : x = y then isTrue (by rw [h]) else isFalse (fun e => h (JValue.num.inj e))
  | .str x, .str y =>
    if h : x = y then isTrue (by rw [h]) else isFalse (fun e => h (JValue.str.inj e))
  | .arr as, .arr bs =>
    match decEqL as bs with
    | isTrue h => isTrue (by rw [h])
    | isFalse h => isFalse (fun e => h (JValue.arr.inj e))
  | .obj as, .obj bs =>
    match decEqF as bs with
    | isTrue h => isTrue (by rw [h])
    | isFalse h => isFalse (fun e => h (JValue.obj.inj e))
  | .null, .bool _ => isFalse (fun e => by cases e)
  | .null, .num _ => isFalse (fun e => by cases e)
  | .null, .str _ => isFalse (fun e => by cases e)
  | .null, .arr _ => isFalse (fun e => by cases e)
  | .null, .obj _ => isFalse (fun e => by cases e)
  | .bool _, .null => isFalse (fun e => by cases e)
  | .bool _, .num _ => isFalse (fun e => by cases e)
  | .bool _, .str _ => isFalse (fun e => by cases e)
  | .bool _, .arr _ => isFalse (fun e => by cases e)
  | .bool _, .obj _ => isFalse (fun e => by cases e)
  | .num _, .null => isFalse (fun e => by cases e)
  | .num _, .bool _ => isFalse (fun e => by cases e)
  | .num _, .str _ => isFalse (fun e => by cases e)
  | .num _, .arr _ => isFalse (fun e => by cases e)
  | .num _, .obj _ => isFalse (fun e => by cases e)
  | .str _, .null => isFalse (fun e => by cases e)
  | .str _, .bool _ => isFalse (fun e => by cases e)
  | .str _, .num _ => isFalse (fun e => by cases e)
  | .str _, .arr _ => isFalse (fun e => by cases e)
  | .str _, .obj _ => isFalse (fun e => by cases e)
  | .arr _, .null => isFalse (fun e => by cases e)
  | .arr _, .bool _ => isFalse (fun e => by cases e)
  | .arr _, .num _ => isFalse (fun e => by cases e)
  | .arr _, .str _ => isFalse (fun e => by cases e)
  | .arr _, .obj _ => isFalse (fun e => by cases e)
  | .obj _, .null => isFalse (fun e => by cases e)
  | .obj _, .bool _ => isFalse (fun e => by cases e)
  | .obj _, .num _ => isFalse (fun e => by cases e)
  | .obj _, .str _ => isFalse (fun e => by cases e)
  | .obj _, .arr _ => isFalse (fun e => by cases e)
  termination_by structural a => a

def decEqL : (as bs : List JValue) → Decidable (as = bs)
  | [], [] => isTrue rfl
  | [], _ :: _ => isFalse (fun e => by cases e)
  | _ :: _, [] => isFalse (fun e => by cases e)
  | a :: as, b :: bs =>
    match decEqJ a b, decEqL as bs with
    | isTrue h1, isTrue h2 => isTrue (by rw [h1, h2])
    | isFalse h1, _ => isFalse (fun e => h1 (List.cons.inj e).1)
    | _, isFalse h2 => isFalse (fun e => h2 (List.cons.inj e).2)
  termination_by structural l => l

def decEqF : (as bs : List (String × JValue)) → Decidable (as = bs)
  | [], [] => isTrue rfl
  | [], _ :: _ => isFalse (fun e => by cases e)
  | _ :: _, [] => isFalse (fun e => by cases e)
  | (k1, v1) :: as, (k2, v2) :: bs =>
    match (inferInstance : Decidable (k1 = k2)), decEqJ v1 v2, decEqF as bs with
    | isTrue e1, isTrue e2, isTrue e3 => isTrue (by rw [e1, e2, e3])
    | isFalse e1, _, _ =>
      isFalse (fun e => e1 (congrArg Prod.fst (List.cons.inj e).1))
    | _, isFalse e2, _ =>
      isFalse (fun e => e2 (congrArg Prod.snd (List.cons.inj e).1))
    | _, _, isFalse e3 => isFalse (fun e => e3 (List.cons.inj e).2)
  termination_by structural l => l

end

instance : DecidableEq JValue := decEqJ

deriving instance DecidableEq for Except

namespace JValue

/-- Property access `v[k]`: `none` models JavaScript `undefined`
(absent key, or access on a non-object). -/
def getField : JValue → String → Option JValue
  | .obj fields, k => (fields.find? (fun p => p.1 == k)).map (·.2)
  | _, _ => none

/-- JavaScript truthiness of a JSON value. -/
def truthy : JValue → Bool
  | .null => false
  | .bool b => b
  | .num n => n != 0
  | .str s => s != ""
  | .arr _ => true
  | .obj _ => true

/-- Truthiness of a possibly-absent (`undefined`) value. -/
def truthyOpt : Option JValue → Bool
  | none => false
  | some v => truthy v

/-- The JavaScript test `v == null`: true exactly for `null` and `undefined`. -/
def isNullish : Option JValue → Bool
  | none => true
  | some .null => true
  | some _ => false

/-- Functional update for object assignment `v[k] = x`: replace the first
binding of `k` if present, otherwise append the new key at the end
(JavaScript property insertion order). -/
def setField (v : JValue) (k : String) (x : JValue) : JValue :=
  match v with
  | .obj fields =>
    if fields.any (fun p => p.1 == k) then
      .obj (fields.map (fun p => if p.1 == k then (p.1, x) else p))
    else
      .obj (fields ++ [(k, x)])
  | other => other

end JValue

/-- One decimal digit as a string. -/
def digitStr (d : Nat) : String :=
  String.singleton (Char.ofNat (48 + d))

/-- Digit-at-a-time decimal rendering, structurally recursive on a fuel
bound so that it reduces in the kernel; `fuel > log10 n` suffices. -/
def natToDecAux : Nat → Nat → String
  | 0, n => digitStr n
  | fuel + 1, n =>
    if n < 10 then digitStr n
    else natToDecAux fuel (n / 10) ++ digitStr (n % 10)

/-- Decimal rendering of a natural number; the embedding of JavaScript
integer-to-string conversion used in template literals such as
`` `${base}-${counter}${ext}` ``. -/
def natToDec (n : Nat) : String :=
  natToDecAux n n

/-- Decimal rendering of a JavaScript (integral) number. -/
def intToDec (i : Int) : String :=
  if i < 0 then "-" ++ natToDec i.natAbs else natToDec i.natAbs

mutual

/-- Body of `Array.prototype.toString`: the elements joined by `","`. -/
def jsItems : List JValue → String
  | [] => ""
  | [v] => jsItem v
  | v :: w :: vs => jsItem v ++ "," ++ jsItems (w :: vs)

/-- A single element inside `Array.prototype.join`: `null` renders empty. -/
def jsItem : JValue → String
  | .null => ""
  | .bool b => cond b "true" "false"
  | .num n => intToDec n
  | .str s => s
  | .obj _ => "[object Object]"
  | .arr vs => jsItems vs

end

/-- JavaScript `String(v)` conversion of a JSON value. -/
def jsToString : JValue → String
  | .null => "null"
  | v => jsItem v

/-! ### Date parsing

The sort comparator in `getEntries` calls `new Date(string)` and keeps the
result when `getTime()` is not `NaN`.  `Date` is a JavaScript platform
builtin, not repository code; ECMAScript specifies its parsing only for
ISO-8601 date/date-time strings (other formats are implementation-defined,
and date-times without a timezone designator are interpreted in the local
timezone).  We model the timezone-independent core: `YYYY-MM-DD` (UTC
midnight) and `YYYY-MM-DDTHH:MM[:SS[.mmm]]Z`, yielding a millisecond
timestamp since the Unix epoch. -/

/-- Value of a decimal digit character. -/
def digitVal (c : Char) : Option Nat :=
  if c.isDigit then some (c.toNat - 48) else none

/-- Two-digit decimal number. -/
def num2 (a b : Char) : Option Nat := do
  pure ((← digitVal a) * 10 + (← digitVal b))

/-- Three-digit decimal number. -/
def num3 (a b c : Char) : Option Nat := do
  pure ((← digitVal a) * 100 + (← digitVal b) * 10 + (← digitVal c))

/-- Four-digit decimal number. -/
def num4 (a b c d : Char) : Option Nat := do
  pure ((← digitVal a) * 1000 + (← digitVal b) * 100 + (← digitVal c) * 10 + (← digitVal d))

/-- Gregorian leap-year test. -/
def isLeap (y : Nat) : Bool :=
  y % 4 == 0 && (y % 100 != 0 || y % 400 == 0)

/-- Number of days in a month of the proleptic Gregorian calendar. -/
def daysInMonth (y m : Nat) : Nat :=
  if m == 2 then (if isLeap y then 29 else 28)
  else if m == 4 || m == 6 || m == 9 || m == 11 then 30
  else 31

/-- Days from the Unix epoch (1970-01-01) to the civil date `y-m-d`
(4-digit year), by the standard era-based calendar formula. -/
def daysFromCivil (y m d : Nat) : Int :=
  let yy := y + 400
  let yAdj := if m ≤ 2 then yy - 1 else yy
  let era := yAdj / 400
  let yoe := yAdj % 400
  let mp := (m + 9) % 12
  let doy := (153 * mp + 2) / 5 + (d - 1)
  let doe := yoe * 365 + yoe / 4 - yoe / 100 + doy
  ((era * 146097 + doe : Nat) : Int) - 719468 - 146097

/-- Seconds-and-onward tail of an ISO time: either directly `Z`, or
`:SS` / `:SS.mmm` followed by `Z`.  Returns milliseconds. -/
def parseSecondsPart : List Char → Option Nat
  | ['Z'] => some 0
  | ':' :: s1 :: s2 :: rest => do
    let s ← num2 s1 s2
    if s ≤ 59 then
      match rest with
      | ['Z'] => some (s * 1000)
      | '.' :: a :: b :: c :: ['Z'] => do
        let ms ← num3 a b c
        pure (s * 1000 + ms)
      | _ => none
    else none
  | _ => none

/-- Time-of-day tail of an ISO string: empty (date-only, UTC midnight) or
`THH:MM` plus a seconds part.  Returns milliseconds since midnight. -/
def parseTimePart : List Char → Option Nat
  | [] => some 0
  | 'T' :: h1 :: h2 :: ':' :: m1 :: m2 :: rest => do
    let h ← num2 h1 h2
    let mi ← num2 m1 m2
    if h ≤ 23 && mi ≤ 59 then
      let ms ← parseSecondsPart rest
      pure (h * 3600000 + mi * 60000 + ms)
    else none
  | _ => none

/-- Millisecond Unix timestamp of an ISO-8601 UTC date/date-time string,
`none` when the string does not parse (the model of the comparator's
`!isNaN(new Date(s).getTime())` test together with `getTime()`). -/
def parseISODate (s : String) : Option Int :=
  match s.toList with
  | y1 :: y2 :: y3 :: y4 :: '-' :: mo1 :: mo2 :: '-' :: d1 :: d2 :: rest => do
    let y ← num4 y1 y2 y3 y4
    let mo ← num2 mo1 mo2
    let d ← num2 d1 d2
    if 1 ≤ mo && mo ≤ 12 && 1 ≤ d && d ≤ daysInMonth y mo then
      let ms ← parseTimePart rest
      pure (daysFromCivil y mo d * 86400000 + (ms : Int))
    else none
  | _ => none

/-- Model of `String.prototype.localeCompare`: a locale-independent
lexicographic comparison by code points (ECMAScript leaves the exact
collation to the locale; the code only uses the sign). -/
def localeCompare (a b : String) : Int :=
  if a < b then -1 else if b < a then 1 else 0

/-! ### The sort comparator of `getEntries` -/

/-- Sort direction of a `[field, direction]` sort pair. -/
inductive SortDir where
  | asc : SortDir
  | desc : SortDir
deriving DecidableEq

/-- A `[field, direction]` sort pair. -/
abbrev SortKey := String × SortDir

/-- The comparator the `getEntries` sort passes give to `Array.prototype.sort`
(`localApi.ts` lines 197–235), acting on the two field values looked up at
the sort key.  The `instanceof Date` branch of the source is unreachable
here: entries come from `JSON.parse`, which never produces `Date` objects. -/
def cmpVals (dir : SortDir) (va vb : Option JValue) : Int :=
  if JValue.isNullish va && JValue.isNullish vb then 0
  else if JValue.isNullish va then (match dir with | .asc => -1 | .desc => 1)
  else if JValue.isNullish vb then (match dir with | .asc => 1 | .desc => -1)
  else
    match va, vb with
    | some a, some b =>
      match a, b with
      | .num x, .num y => (match dir with | .asc => x - y | .desc => y - x)
      | .str x, .str y =>
        (match parseISODate x, parseISODate y with
         | some tx, some ty => (match dir with | .asc => tx - ty | .desc => ty - tx)
         | _, _ =>
           (match dir with
            | .asc => localeCompare x y
            | .desc => localeCompare y x))
      | a, b =>
        (match dir with
         | .asc => localeCompare (jsToString a) (jsToString b)
         | .desc => localeCompare (jsToString b) (jsToString a))
    | _, _ => 0

/-- The entry-level comparator of a sort pass: compare the values at the
sort key. -/
def cmpEntries (k : SortKey) (a b : JValue) : Int :=
  cmpVals k.2 (a.getField k.1) (b.getField k.1)

/-- The non-strict order a sort pass establishes: comparator at most `0`
(a comparator result `> 0` is the only case in which `sort` puts `b`
before `a`). -/
def leBy (k : SortKey) (a b : JValue) : Bool :=
  decide (cmpEntries k a b ≤ 0)

/-! ### Stable sorting

ECMAScript requires `Array.prototype.sort` to be stable, and to order the
array consistently with the comparator whenever the comparator is consistent
(for inconsistent comparators the resulting order is implementation-defined).
We embed it as a stable insertion sort, which realizes exactly this
contract. -/

/-- Insert `a` into `l` before the first element `b` with `le a b`
(stable insertion: on ties the inserted element, which originated earlier
in the unsorted input, stays in front). -/
def orderedInsertJS (le : α → α → Bool) (a : α) : List α → List α
  | [] => [a]
  | b :: l => if le a b then a :: b :: l else b :: orderedInsertJS le a l

/-- Stable insertion sort: the embedding of one `Array.prototype.sort` call
with comparator order `le`. -/
def stableSort (le : α → α → Bool) : List α → List α
  | [] => []
  | a :: l => orderedInsertJS le a (stableSort le l)

/-- One sort pass of the `getEntries` sort loop. -/
def sortPass (k : SortKey) (l : List JValue) : List JValue :=
  stableSort (leBy k) l

/-- The whole sort loop: one stable pass per `[field, direction]` pair,
in declaration order. -/
def applySorts (ss : List SortKey) (l : List JValue) : List JValue :=
  ss.foldl (fun acc k => sortPass k acc) l

theorem mem_orderedInsertJS (le : α → α → Bool) (a x : α) (l : List α) :
    x ∈ orderedInsertJS le a l ↔ x = a ∨ x ∈ l := by
  induction l with
  | nil => simp [orderedInsertJS]
  | cons b l ih =>
    by_cases h : le a b
    · simp [orderedInsertJS, h]
    · simp only [orderedInsertJS, if_neg h, List.mem_cons, ih]
      tauto

theorem mem_stableSort (le : α → α → Bool) (x : α) (l : List α) :
    x ∈ stableSort le l ↔ x ∈ l := by
  induction l with
  | nil => simp [stableSort]
  | cons a l ih => simp [stableSort, mem_orderedInsertJS, ih]

theorem orderedInsertJS_eq (le : α → α → Bool) (a : α) (l : List α) :
    orderedInsertJS le a l =
      l.takeWhile (fun b => !le a b) ++ a :: l.dropWhile (fun b => !le a b) := by
  induction l with
  | nil => simp [orderedInsertJS]
  | cons b l ih =>
    by_cases h : le a b
    · simp [orderedInsertJS, h, List.takeWhile_cons, List.dropWhile_cons]
    · simp [orderedInsertJS, h, List.takeWhile_cons, List.dropWhile_cons, ih]

theorem sublist_orderedInsertJS (le : α → α → Bool) (a : α) {c l : List α}
    (h : List.Sublist c l) : List.Sublist c (orderedInsertJS le a l) := by
  rw [orderedInsertJS_eq]
  have h2 : List.Sublist c (l.takeWhile (fun b => !le a b) ++ l.dropWhile (fun b => !le a b)) := by
    rwa [List.takeWhile_append_dropWhile]
  exact h2.trans ((List.sublist_cons_self a _).append_left _)

theorem pair_sublist_orderedInsertJS (le : α → α → Bool) {a b : α} {l : List α}
    (hab : le a b = true) (hb : b ∈ l) :
    List.Sublist [a, b] (orderedInsertJS le a l) := by
  rw [orderedInsertJS_eq]
  rw [← List.takeWhile_append_dropWhile (p := fun x => !le a x) (l := l),
    List.mem_append] at hb
  rcases hb with hb | hb
  · have := List.mem_takeWhile_imp hb
    simp [hab] at this
  · have h1 : List.Sublist [b] (l.dropWhile (fun x => !le a x)) := List.singleton_sublist.mpr hb
    exact (h1.cons₂ a).trans (List.sublist_append_right _ _)

theorem pair_sublist_stableSort (le : α → α → Bool) {a b : α} {l : List α}
    (hab : le a b = true) (h : List.Sublist [a, b] l) : List.Sublist [a, b] (stableSort le l) := by
  induction l with
  | nil => cases h
  | cons x l ih =>
    cases h with
    | cons _ h1 => exact sublist_orderedInsertJS le x (ih h1)
    | cons₂ _ h2 =>
      exact pair_sublist_orderedInsertJS le hab
        ((mem_stableSort le b l).mpr (List.singleton_sublist.mp h2))

theorem pairwise_orderedInsertJS (le : α → α → Bool) (a : α) (l : List α)
    (hl : l.Pairwise (fun x y => le x y = true))
    (htot : ∀ b ∈ l, le a b = true ∨ le b a = true)
    (htrans : ∀ b ∈ l, ∀ c ∈ l, le a b = true → le b c = true → le a c = true) :
    (orderedInsertJS le a l).Pairwise (fun x y => le x y = true) := by
  induction l with
  | nil => simp [orderedInsertJS]
  | cons b l ih =>
    by_cases h : le a b
    · rw [orderedInsertJS, if_pos h]
      refine List.Pairwise.cons ?_ hl
      intro y hy
      rcases List.mem_cons.mp hy with rfl | hy
      · exact h
      · exact htrans b (by simp) y (by simp [hy]) h
          (List.rel_of_pairwise_cons hl hy)
    · rw [orderedInsertJS, if_neg h]
      refine List.Pairwise.cons ?_ ?_
      · intro y hy
        rcases (mem_orderedInsertJS le a y l).mp hy with h1 | h1
        · subst h1
          rcases htot b (List.mem_cons_self b l) with h2 | h2
          · exact absurd h2 h
          · exact h2
        · exact List.rel_of_pairwise_cons hl h1
      · exact ih hl.tail
          (fun c hc => htot c (by simp [hc]))
          (fun c hc d hd => htrans c (by simp [hc]) d (by simp [hd]))

theorem pairwise_stableSort (le : α → α → Bool) (l : List α)
    (htot : ∀ x ∈ l, ∀ y ∈ l, le x y = true ∨ le y x = true)
    (htrans : ∀ x ∈ l, ∀ y ∈ l, ∀ z ∈ l,
      le x y = true → le y z = true → le x z = true) :
    (stableSort le l).Pairwise (fun x y => le x y = true) := by
  induction l with
  | nil => simp [stableSort]
  | cons a l ih =>
    rw [stableSort]
    refine pairwise_orderedInsertJS le a (stableSort le l)
      (ih (fun x hx y hy => htot x (by simp [hx]) y (by simp [hy]))
          (fun x hx y hy z hz =>
            htrans x (by simp [hx]) y (by simp [hy]) z (by simp [hz])))
      ?_ ?_
    · intro b hb
      exact htot a (by simp) b (by simp [(mem_stableSort le b l).mp hb])
    · intro b hb c hc
      exact htrans a (by simp) b (by simp [(mem_stableSort le b l).mp hb])
        c (by simp [(mem_stableSort le c l).mp hc])

theorem applySorts_append (ss₁ ss₂ : List SortKey) (l : List JValue) :
    applySorts (ss₁ ++ ss₂) l = applySorts ss₂ (applySorts ss₁ l) :=
  List.foldl_append _ _ _ _

/-- Two entries tie on a sort key when the comparator orders them both ways. -/
def tieOn (k : SortKey) (a b : JValue) : Bool :=
  leBy k a b && leBy k b a

theorem mem_applySorts (ss : List SortKey) (x : JValue) (l : List JValue) :
    x ∈ applySorts ss l ↔ x ∈ l := by
  induction ss generalizing l with
  | nil => simp [applySorts]
  | cons k ss ih =>
    show x ∈ applySorts ss (sortPass k l) ↔ x ∈ l
    rw [ih, sortPass, mem_stableSort]

theorem pair_sublist_applySorts (ss : List SortKey) {a b : JValue} {l : List JValue}
    (hties : ∀ k ∈ ss, tieOn k a b = true) (h : List.Sublist [a, b] l) :
    List.Sublist [a, b] (applySorts ss l) := by
  induction ss generalizing l with
  | nil => exact h
  | cons k ss ih =>
    show List.Sublist [a, b] (applySorts ss (sortPass k l))
    refine ih (fun j hj => hties j (by simp [hj])) ?_
    have hk := hties k (by simp)
    rw [tieOn, Bool.and_eq_true] at hk
    exact pair_sublist_stableSort (leBy k) hk.1 h

/-! ### Registry and schemas

The collection/global registries of `LocalApi` (constructor and `setConfig`),
with string-or-handle references resolved by `getCollectionRef` /
`getGlobalRef`.  The schema language itself lives in `src/types.ts` /
`src/schemas.ts` / `src/validate.ts`, which are not among the provided
sources; the `Schema` type and its validator below are modelled from the
spec. -/

/-- Modelled from the spec: a field type of a collection schema — the spec
describes schemas as a tagged-variant tree with string/number/boolean leaves
and reference-typed fields pointing at another collection (§9, §4.5). -/
inductive FieldType where
  | string : FieldType
  | number : FieldType
  | boolean : FieldType
  | reference : String → FieldType
deriving DecidableEq

/-- Modelled from the spec: a collection (or global) schema — a set of
required fields with their types (§3, §4.5). -/
structure Schema where
  fields : List (String × FieldType)
deriving DecidableEq

/-- A registered collection: `name` (the on-disk directory name) plus its
schema. -/
structure Collection where
  name : String
  schema : Schema
deriving DecidableEq

/-- A registered global: `name` (the on-disk file name) plus its schema. -/
structure Global where
  name : String
  schema : Schema
deriving DecidableEq

/-- The in-memory registry of `LocalApi`: the `collections` and `globals`
maps, keyed by name. -/
structure LocalApi where
  collections : List Collection
  globals : List Global
deriving DecidableEq

/-- Lookup in the collections map.  The maps are built with
`new Map(list.map(c => [c.name, c]))`, where a later duplicate name
overwrites an earlier one — hence `getLast?`. -/
def lookupCollection (api : LocalApi) (n : String) : Option Collection :=
  (api.collections.filter (fun c => c.name == n)).getLast?

/-- Lookup in the globals map. -/
def lookupGlobal (api : LocalApi) (n : String) : Option Global :=
  (api.globals.filter (fun g => g.name == n)).getLast?

/-- A `CollectionReference`: either a bare name or an already-resolved
handle. -/
inductive CollectionReference where
  | byName : String → CollectionReference
  | resolved : Collection → CollectionReference

/-- A `GlobalReference`: either a bare name or an already-resolved handle. -/
inductive GlobalReference where
  | byName : String → GlobalReference
  | resolved : Global → GlobalReference

/-- The embedding of `LocalApi.getCollectionRef`: a string is looked up in
the registry and raises `Collection <name> not found` when absent; a handle
passes through. -/
def getCollectionRef (api : LocalApi) : CollectionReference → Except String Collection
  | .byName n =>
    match lookupCollection api n with
    | some c => .ok c
    | none => .error ("Collection " ++ n ++ " not found")
  | .resolved c => .ok c

/-- The embedding of `LocalApi.getGlobalRef`. -/
def getGlobalRef (api : LocalApi) : GlobalReference → Except String Global
  | .byName n =>
    match lookupGlobal api n with
    | some g => .ok g
    | none => .error ("Global " ++ n ++ " not found")
  | .resolved g => .ok g

/-! ### Validation (modelled from the spec)

`setEntry` validates via `convertZodSchema` plus an Ajv validator built with
collection-name formats (`localApi.ts` lines 266–280); `schemas.ts` and
`validate.ts` are not among the provided sources.  Per the spec (§4.2, §4.5,
§7): the payload must be an object carrying every declared field with the
declared type; reference fields are validated as `{id, collection}` shape
against the referenced collection name; on failure the raised error embeds
the aggregated field-level error text (`ajv.errorsText` joins the individual
messages). -/

/-- Modelled from the spec: does a value conform to a field type?  Reference
fields are checked as `{id, collection}` shape with the right target name
(§4.5). -/
def checkField : FieldType → JValue → Bool
  | .string, .str _ => true
  | .number, .num _ => true
  | .boolean, .bool _ => true
  | .reference target, v =>
    (match v.getField "id" with
     | some (.str _) => true
     | _ => false) &&
    (match v.getField "collection" with
     | some (.str c) => c == target
     | _ => false)
  | _, _ => false

/-- Modelled from the spec: the aggregated field-level validation errors of a
payload against a schema (one message per failing field). -/
def validationErrors (s : Schema) (v : JValue) : List String :=
  match v with
  | .obj _ =>
    s.fields.filterMap (fun p =>
      match v.getField p.1 with
      | none => some ("data must have required property " ++ p.1)
      | some fv =>
        if checkField p.2 fv then none
        else some ("data/" ++ p.1 ++ " has wrong type"))
  | _ => ["data must be object"]

/-- The embedding of `ajv.errorsText`: the individual messages joined into
one human-readable string. -/
def errorsText (errs : List String) : String :=
  String.intercalate ", " errs

/-- Modelled from the spec: the boolean verdict of the compiled validator. -/
def validateEntry (s : Schema) (v : JValue) : Bool :=
  (validationErrors s v).isEmpty

/-! ### The content directory

The on-disk state: entry files `contentDir/<collection>/<id>.json` (stored
as the entry value — the `{ "data": ... }` envelope written by `setEntry` is
unwrapped again by every reader, so files hold the entry itself in the
model), the set of directories that exist, and the asset files
`contentDir/assets/<filename>` with their bytes, in directory-listing
order. -/

/-- Asset file contents. -/
abbrev Bytes := List Nat

/-- The persisted state under `contentDir`. -/
structure ContentState where
  entries : List ((String × String) × JValue)
  dirs : List String
  assets : List (String × Bytes)
deriving DecidableEq

/-- Read the entry file `<col>/<id>.json`, `none` when it does not exist. -/
def lookupEntry (st : ContentState) (col id : String) : Option JValue :=
  (st.entries.find? (fun p => p.1 == (col, id))).map (·.2)

/-- Overwrite-or-create an entry file (the semantics of `fs.writeFile`). -/
def updateAssoc (l : List ((String × String) × JValue)) (k : String × String)
    (v : JValue) : List ((String × String) × JValue) :=
  if l.any (fun p => p.1 == k) then
    l.map (fun p => if p.1 == k then (k, v) else p)
  else l ++ [(k, v)]

/-- The parsed entries of one collection directory, in listing order
(`fs.readdir` + parse + unwrap of the `data` envelope). -/
def entriesOf (st : ContentState) (col : String) : List JValue :=
  (st.entries.filter (fun p => p.1.1 == col)).map (·.2)

/-- Create a directory if missing (`fs.mkdir` with `recursive: true`). -/
def mkdir (st : ContentState) (d : String) : ContentState :=
  { st with dirs := if st.dirs.contains d then st.dirs else st.dirs ++ [d] }

/-! ### Entry store -/

/-- The nested `this.getEntry(value.collection, value.id)` call made during
reference resolution, where both arguments come from entry data.  A string
reference is looked up in the registry (raising when absent, from
`getCollectionRef`, which sits outside the nested call's `try`); a
non-string value passes through `getCollectionRef` unchanged, so the nested
read uses `ref.name` as directory — a usable string `name` property reads
that directory, anything else makes the nested read fail inside the nested
`try` and yield `null`.  The file name is `` `${id}.json` ``, i.e. the
string conversion of the id value. -/
def getEntryData (api : LocalApi) (st : ContentState) (colRef idVal : JValue) :
    Except String (Option JValue) :=
  match colRef with
  | .str s =>
    match lookupCollection api s with
    | some c => .ok (lookupEntry st c.name (jsToString idVal))
    | none => .error ("Collection " ++ s ++ " not found")
  | other =>
    match other.getField "name" with
    | some (.str s) => .ok (lookupEntry st s (jsToString idVal))
    | _ => .ok none

/-- One step of the `include` loop: when `entry[inc]` is a truthy-`id`,
truthy-`collection` reference object, resolve the referenced entry and
attach it as the `entry` side-attribute of the reference object. -/
def includeStep (api : LocalApi) (st : ContentState) (entry : JValue)
    (inc : String) : Except String JValue :=
  match entry.getField inc with
  | some value =>
    match value.getField "id", value.getField "collection" with
    | some idv, some colv =>
      if idv.truthy && colv.truthy then do
        let other ← getEntryData api st colv idv
        pure (entry.setField inc (value.setField "entry" (other.getD .null)))
      else pure entry
    | _, _ => pure entry
  | none => pure entry

/-- The whole `include` loop over one entry. -/
def resolveIncludes (api : LocalApi) (st : ContentState) (includes : List String)
    (entry : JValue) : Except String JValue :=
  includes.foldlM (fun e inc => includeStep api st e inc) entry

/-- The embedding of `LocalApi.getEntry`.  The reference is resolved outside
the `try` block (an unknown name raises); everything else — the file read,
the parse and the whole include loop — happens inside it, and any error
there is swallowed into a `null` result by the `catch`. -/
def getEntryBody (api : LocalApi) (st : ContentState) (colName id : String)
    (includeOpt : Option (List String)) : Except String (Option JValue) :=
  match
    (match lookupEntry st colName id with
     | none => .error "ENOENT"
     | some entry =>
       if entry.truthy && !(includeOpt.getD []).isEmpty then
         (resolveIncludes api st (includeOpt.getD []) entry).map some
       else .ok (some entry) : Except String (Option JValue)) with
  | .ok r => .ok r
  | .error _ => .ok none

/-- The embedding of `LocalApi.getEntry`, with the reference resolution
(outside the `try`) made explicit. -/
def getEntry (api : LocalApi) (st : ContentState) (ref : CollectionReference)
    (id : String) (includeOpt : Option (List String)) :
    Except String (Option JValue) :=
  match getCollectionRef api ref with
  | .error e => .error e
  | .ok col => getEntryBody api st col.name id includeOpt

/-- The embedding of `LocalApi.setEntry`: resolve the collection, create the
collection directory, validate the payload (raising the aggregated error
text on failure, with no file written), then write `{ data }` to
`<collection>/<id>.json`, overwriting unconditionally.  The state after a
raised error is returned alongside, since the `mkdir` has already
happened. -/
def setEntry (api : LocalApi) (st : ContentState) (ref : CollectionReference)
    (id : String) (data : JValue) : Except String Unit × ContentState :=
  match getCollectionRef api ref with
  | .error e => (.error e, st)
  | .ok col =>
    let st1 := mkdir st col.name
    let errs := validationErrors col.schema data
    if errs.isEmpty then
      (.ok (), { st1 with entries := updateAssoc st1.entries (col.name, id) data })
    else
      (.error (errorsText errs), st1)

/-- The embedding of `LocalApi.deleteEntry`: unlink, reporting success as a
boolean. -/
def deleteEntry (api : LocalApi) (st : ContentState) (ref : CollectionReference)
    (id : String) : Except String Bool × ContentState :=
  match getCollectionRef api ref with
  | .error e => (.error e, st)
  | .ok col =>
    match lookupEntry st col.name id with
    | none => (.ok false, st)
    | some _ =>
      (.ok true,
        { st with entries := st.entries.filter (fun p => !(p.1 == (col.name, id))) })

/-- The embedding of `LocalApi.getGlobalValue`: resolve the global (an
unknown name raises), then read `globals/<name>.json`, with read failure
becoming `null`. -/
def getGlobalValue (api : LocalApi) (st : ContentState) (ref : GlobalReference) :
    Except String (Option JValue) :=
  match getGlobalRef api ref with
  | .error e => .error e
  | .ok g => .ok (lookupEntry st "globals" g.name)

/-! ### Query engine (`getEntries`) -/

/-- Modelled from the spec: the Filter Evaluator `doesMatchFilter`
(`src/applyFilters.ts` is not among the provided sources).  Per §4.4/§8 a
filter is a top-level AND of per-field constraints; the per-field equality
form suffices for the claims under verification. -/
def doesMatchFilter (entry : JValue) (filters : List (String × JValue)) : Bool :=
  filters.all (fun f => entry.getField f.1 == some f.2)

/-- The options record of `getEntries`.  `none` is an absent option; note
that JavaScript treats a present `0`/empty value as falsy where the code
tests truthiness. -/
structure GetEntriesOptions where
  includeCount : Bool := false
  includeOpt : Option (List String) := none
  limit : Option Nat := none
  offset : Option Nat := none
  filters : Option (List (String × JValue)) := none
  sort : Option (List SortKey) := none

/-- The result record `{ entries, limit, offset, count? }`; `count := none`
models an absent `count` field. -/
structure GetEntriesResult where
  entries : List JValue
  limit : Nat
  offset : Nat
  count : Option Nat
deriving DecidableEq

/-- The filter stage of the pipeline (again in listing order); any present
`filters` object is truthy, even an empty one. -/
def filteredEntries (st : ContentState) (colName : String)
    (filters : Option (List (String × JValue))) : List JValue :=
  match filters with
  | some fs => (entriesOf st colName).filter (fun e => doesMatchFilter e fs)
  | none => entriesOf st colName

/-- The filter-then-paginate front of the pipeline: `slice(offset)` only when
`offset` is truthy, then `slice(0, limit)`. -/
def pagedEntries (st : ContentState) (colName : String)
    (filters : Option (List (String × JValue))) (offset : Option Nat)
    (limit : Nat) : List JValue :=
  let entries := filteredEntries st colName filters
  let entries :=
    match offset with
    | some o => if o == 0 then entries else entries.drop o
    | none => entries
  entries.take limit

/-- The embedding of `LocalApi.getEntries` (`localApi.ts` lines 155–256), in
source order: resolve the collection (unknown names raise); a missing
collection directory returns the early empty result (without `count`);
list and parse the entry files; filter (when `filters` is given — any
object, even empty, is truthy); record `totalCount`; paginate; one stable
sort pass per sort pair; then the include loop, whose nested registry
errors propagate (no surrounding `try`). -/
def getEntries (api : LocalApi) (st : ContentState) (ref : CollectionReference)
    (opts : GetEntriesOptions) : Except String GetEntriesResult :=
  let limit := opts.limit.getD 1000
  match getCollectionRef api ref with
  | .error e => .error e
  | .ok col =>
    if !(st.dirs.contains col.name) then
      .ok { entries := [], limit := limit, offset := opts.offset.getD 0, count := none }
    else
      let totalCount := (filteredEntries st col.name opts.filters).length
      let entries :=
        applySorts (opts.sort.getD [])
          (pagedEntries st col.name opts.filters opts.offset limit)
      match
        (if !(opts.includeOpt.getD []).isEmpty then
          entries.mapM (fun e => resolveIncludes api st (opts.includeOpt.getD []) e)
        else .ok entries : Except String (List JValue)) with
      | .error e => .error e
      | .ok entries2 =>
        .ok { entries := entries2, limit := limit, offset := opts.offset.getD 0,
              count := if opts.includeCount then some totalCount else none }

/-! ### Asset store -/

/-- The filenames in the assets directory, in listing order. -/
def assetNames (st : ContentState) : List String :=
  st.assets.map (·.1)

/-- Read an asset file's bytes. -/
def lookupAsset (st : ContentState) (n : String) : Option Bytes :=
  (st.assets.find? (fun p => p.1 == n)).map (·.2)

/-- Overwrite-or-create an asset file (the semantics of `fs.writeFile`). -/
def writeAsset (l : List (String × Bytes)) (n : String) (b : Bytes) :
    List (String × Bytes) :=
  if l.any (fun p => p.1 == n) then
    l.map (fun p => if p.1 == n then (n, b) else p)
  else l ++ [(n, b)]

/-- The embedding of `path.extname` for a plain filename: the suffix from
the last dot, empty when there is no dot or the only dot starts the name
(dotfile). -/
def extname (filename : String) : String :=
  let cs := filename.toList
  match ((List.range cs.length).filter (fun i => cs.getD i ' ' == '.')).getLast? with
  | some i => if i == 0 then "" else String.mk (cs.drop i)
  | none => ""

/-- The embedding of `path.basename(filename, ext)` for a plain filename:
strip a trailing `ext` when it is a proper suffix. -/
def basenameMinusExt (filename ext : String) : String :=
  let fc := filename.toList
  let ec := ext.toList
  if !ec.isEmpty && ec.isSuffixOf fc && ec.length < fc.length then
    String.mk (fc.take (fc.length - ec.length))
  else filename

/-- The candidate filename `` `${base}-${counter}${ext}` `` of the
uniqueness loop. -/
def candName (base ext : String) (c : Nat) : String :=
  base ++ "-" ++ natToDec c ++ ext

/-- The `while` loop of `uploadAsset`, made structurally recursive on a fuel
bound: try `base-c ext`, `base-(c+1) ext`, … until a name is free. -/
def findFree (names : List String) (base ext : String) : Nat → Nat → String
  | 0, c => candName base ext c
  | fuel + 1, c =>
    let cand := candName base ext c
    if names.contains cand then findFree names base ext fuel (c + 1) else cand

/-- The unique final filename chosen by `uploadAsset`: the requested name
when free, otherwise the first free `` `${base}-${counter}${ext}` `` with
`counter` counting up from 1 (`base` and `ext` are recomputed from the
original `filename` each iteration, so they stay constant).  A fuel of
`names.length + 1` suffices: that many distinct candidates cannot all be
taken. -/
def uniqueFilename (names : List String) (filename : String) : String :=
  if names.contains filename then
    findFree names (basenameMinusExt filename (extname filename)) (extname filename)
      (names.length + 1) 1
  else filename

/-- ASCII lower-casing of one character (the filenames and MIME checks of
the source only distinguish ASCII case). -/
def charToLower (c : Char) : Char :=
  if 65 ≤ c.toNat && c.toNat ≤ 90 then Char.ofNat (c.toNat + 32) else c

/-- The embedding of `String.prototype.toLowerCase` on filename-like
strings. -/
def strToLower (s : String) : String :=
  String.mk (s.toList.map charToLower)

/-- The embedding of `String.prototype.startsWith`. -/
def strStartsWith (s pre : String) : Bool :=
  List.isPrefixOf pre.toList s.toList

/-- The embedding of `filename.split("/").pop()`: the part after the last
slash. -/
def lastSegment (s : String) : String :=
  String.mk ((s.toList.reverse.takeWhile (fun c => !(c == '/'))).reverse)

/-- The embedding of `LocalApi.getContentType`: the fixed extension → MIME
lookup, on the lower-cased extension; `none` for unrecognized extensions. -/
def getContentType (filename : String) : Option String :=
  let ext := strToLower (extname filename)
  if ext == ".jpg" then some "image/jpeg"
  else if ext == ".jpeg" then some "image/jpeg"
  else if ext == ".png" then some "image/png"
  else if ext == ".gif" then some "image/gif"
  else if ext == ".webp" then some "image/webp"
  else if ext == ".avif" then some "image/avif"
  else if ext == ".svg" then some "image/svg+xml"
  else if ext == ".mp4" then some "video/mp4"
  else if ext == ".webm" then some "video/webm"
  else if ext == ".mp3" then some "audio/mpeg"
  else if ext == ".wav" then some "audio/wav"
  else if ext == ".ogg" then some "audio/ogg"
  else if ext == ".pdf" then some "application/pdf"
  else if ext == ".doc" then some "application/msword"
  else if ext == ".docx" then
    some "application/vnd.openxmlformats-officedocument.wordprocessingml.document"
  else if ext == ".zip" then some "application/zip"
  else if ext == ".rar" then some "application/x-rar-compressed"
  else if ext == ".json" then some "application/json"
  else if ext == ".xml" then some "application/xml"
  else if ext == ".txt" then some "text/plain"
  else none

/-- The result record of `uploadAsset` (the `path` field of the source — the
absolute `contentDir/assets/<filename>` string — is determined by the
filename and carries no extra state, so it is not repeated here). -/
structure UploadResult where
  filename : String
  size : Nat
  contentType : Option String
deriving DecidableEq

/-- The embedding of `LocalApi.uploadAsset`: ensure the assets directory,
take the explicit `contentType` or derive it from the filename
(`?? getContentType`), pick a collision-free filename, write the bytes. -/
def uploadAsset (st : ContentState) (file : Bytes) (filename : String)
    (contentType : Option String) : UploadResult × ContentState :=
  let st1 := mkdir st "assets"
  let ct :=
    match contentType with
    | some c => some c
    | none => getContentType filename
  let finalFilename := uniqueFilename (assetNames st1) filename
  let st2 := { st1 with assets := writeAsset st1.assets finalFilename file }
  ({ filename := finalFilename, size := file.length, contentType := ct }, st2)

/-- The transform options of `getAsset`. -/
structure TransformOptions where
  width : Option Nat := none
  height : Option Nat := none
  format : Option String := none
  quality : Option Nat := none
  fit : Option String := none
  position : Option String := none
  background : Option String := none
  withoutEnlargement : Option Bool := none
  withoutReduction : Option Bool := none

/-- The optional image-processing collaborator (`sharp`, loaded with
`require` inside a `try`): metadata extraction and the transform pipeline.
`getAsset` and `listAssets` receive it as `Option ImageProc`; `none` models
the module being unavailable (the `catch` path: warn and fall back to the
original bytes). -/
structure ImageProc where
  metadata : Bytes → Option Nat × Option Nat
  transform : TransformOptions → Bytes → Bytes

/-- The result record of `getAsset`. -/
structure AssetData where
  data : Bytes
  contentType : Option String
  width : Option Nat
  height : Option Nat
deriving DecidableEq

/-- Did the caller ask for a transformation?  The source tests
`options?.width || options?.height || options?.format || options?.quality`,
JavaScript truthiness: a present `0` does not count. -/
def wantsTransform (opts : TransformOptions) : Bool :=
  (match opts.width with | some n => n != 0 | none => false) ||
  (match opts.height with | some n => n != 0 | none => false) ||
  (match opts.format with | some f => f != "" | none => false) ||
  (match opts.quality with | some n => n != 0 | none => false)

/-- The embedding of `LocalApi.getAsset`: read the bytes (missing file ⇒
`null`); derive `contentType` from the stored filename; for images, run the
optional transform pipeline — note that the returned `contentType` is the
one derived from the filename on line 411 of the source in every path, also
when `format` re-encodes the bytes. -/
def getAsset (st : ContentState) (proc : Option ImageProc) (filename : String)
    (opts : TransformOptions) : Option AssetData :=
  match lookupAsset st filename with
  | none => none
  | some data =>
    let contentType := getContentType filename
    let isImage :=
      match contentType with
      | some c => strStartsWith c "image/"
      | none => false
    if isImage then
      match proc with
      | none =>
        some { data := data, contentType := contentType, width := none, height := none }
      | some p =>
        let dims := p.metadata data
        if wantsTransform opts then
          let data2 := p.transform opts data
          let dims2 := p.metadata data2
          some { data := data2, contentType := contentType,
                 width := dims2.1, height := dims2.2 }
        else
          some { data := data, contentType := contentType,
                 width := dims.1, height := dims.2 }
    else
      some { data := data, contentType := contentType, width := none, height := none }

/-- The options record of `listAssets`. -/
structure ListAssetsOptions where
  search : Option String := none
  limit : Option Nat := none
  startAfter : Option String := none

/-- An asset listing record: `name` (the last path segment of the key),
`key`, `size`, best-effort image `metadata` (width/height) and
`httpMetadata.contentType` (absent for unrecognized extensions). -/
structure Asset where
  name : String
  key : String
  size : Nat
  width : Option Nat
  height : Option Nat
  httpContentType : Option String
deriving DecidableEq

/-- Case-insensitive substring test
(`file.toLowerCase().includes(search.toLowerCase())`). -/
def strContainsCI (hay needle : String) : Bool :=
  let h := (strToLower hay).toList
  let n := (strToLower needle).toList
  (List.range (h.length + 1)).any (fun i => List.isPrefixOf n (h.drop i))

/-- The per-file record construction of `listAssets`: size, content type and
best-effort image dimensions (swallowing processor errors). -/
def assetRecord (st : ContentState) (proc : Option ImageProc)
    (filename : String) : Asset :=
  let ct := getContentType filename
  let isImage :=
    match ct with
    | some c => strStartsWith c "image/"
    | none => false
  let dims : Option Nat × Option Nat :=
    if isImage then
      match proc with
      | some p => p.metadata ((lookupAsset st filename).getD [])
      | none => (none, none)
    else (none, none)
  { name := lastSegment filename, key := filename,
    size := ((lookupAsset st filename).getD []).length,
    width := dims.1, height := dims.2, httpContentType := ct }

/-- The embedding of `LocalApi.listAssets` (`localApi.ts` lines 464–521), in
source order: list the assets directory (a missing directory means `readdir`
throws and the `catch` returns `[]`); when `search` is truthy keep the
case-insensitive matches; when `startAfter` is truthy and present in the
(already filtered) list, keep what follows it; when `limit` is truthy take
that many; then build the records with size, content type and best-effort
image dimensions. -/
def listAssets (st : ContentState) (proc : Option ImageProc)
    (opts : ListAssetsOptions) : List Asset :=
  if !(st.dirs.contains "assets") then []
  else
    let files := assetNames st
    let files :=
      match opts.search with
      | some s => if s == "" then files else files.filter (fun f => strContainsCI f s)
      | none => files
    let files :=
      match opts.startAfter with
      | some sa =>
        if sa == "" then files
        else
          match files.findIdx? (fun f => f == sa) with
          | some i => files.drop (i + 1)
          | none => files
      | none => files
    let files :=
      match opts.limit with
      | some n => if n == 0 then files else files.take n
      | none => files
    files.map (assetRecord st proc)

/-- The embedding of `LocalApi.deleteAsset`. -/
def deleteAsset (st : ContentState) (filename : String) : Bool × ContentState :=
  match lookupAsset st filename with
  | none => (false, st)
  | some _ =>
    (true, { st with assets := st.assets.filter (fun p => !(p.1 == filename)) })

/-! ## Helper lemmas about the entry store -/

theorem updateAssoc_cons_ne (p : (String × String) × JValue)
    (l : List ((String × String) × JValue)) (k : String × String) (v : JValue)
    (h : (p.1 == k) = false) :
    updateAssoc (p :: l) k v = p :: updateAssoc l k v := by
  have hne : ¬(p.1 = k) := by simpa using h
  by_cases h2 : l.any (fun q => q.1 == k)
  · simp [updateAssoc, List.any_cons, h, h2, hne]
  · simp [updateAssoc, List.any_cons, h, h2]

theorem find?_updateAssoc (l : List ((String × String) × JValue))
    (k : String × String) (v : JValue) :
    (updateAssoc l k v).find? (fun p => p.1 == k) = some (k, v) := by
  induction l with
  | nil => simp [updateAssoc, List.find?]
  | cons p l ih =>
    by_cases h : (p.1 == k) = true
    · unfold updateAssoc
      simp only [List.any_cons, h, Bool.true_or, if_pos]
      simp [List.find?, h]
    · rw [updateAssoc_cons_ne p l k v (by simpa using h)]
      rw [List.find?_cons_of_neg _ (by simpa using h)]
      exact ih

theorem entries_mkdir (st : ContentState) (d : String) :
    (mkdir st d).entries = st.entries := rfl

theorem lookupEntry_updateAssoc_self (st : ContentState) (col id : String)
    (v : JValue) :
    lookupEntry { st with entries := updateAssoc st.entries (col, id) v } col id
      = some v := by
  unfold lookupEntry
  simp only
  rw [find?_updateAssoc]
  rfl

/-! ## C1 -/

/-- C1: for every registered collection, filename-safe id and schema-valid
entry, `setEntry(c, id, e)` succeeds and a subsequent `getEntry(c, id)`
(no `include` option) returns exactly the stored entry. -/
theorem setEntry_getEntry_roundtrip (api : LocalApi) (st : ContentState)
    (n : String) (c : Collection) (id : String) (e : JValue)
    (hreg : lookupCollection api n = some c)
    (hvalid : validateEntry c.schema e = true) :
    (setEntry api st (.byName n) id e).1 = .ok () ∧
    getEntry api (setEntry api st (.byName n) id e).2 (.byName n) id none
      = .ok (some e) := by
  have hres : getCollectionRef api (.byName n) = .ok c := by
    simp [getCollectionRef, hreg]
  have herrs : (validationErrors c.schema e).isEmpty = true := hvalid
  have hset :
      setEntry api st (.byName n) id e =
        (.ok (), { mkdir st c.name with
          entries := updateAssoc (mkdir st c.name).entries (c.name, id) e }) := by
    simp [setEntry, hres, herrs]
  refine ⟨by rw [hset], ?_⟩
  rw [hset]
  simp [getEntry, hres, getEntryBody, lookupEntry, find?_updateAssoc]

/-- Witness for C1 at a concrete registry, state and entry. -/
theorem setEntry_getEntry_roundtrip_witness :
    (setEntry
        { collections := [{ name := "posts", schema := ⟨[("title", .string)]⟩ }],
          globals := [] }
        { entries := [], dirs := [], assets := [] }
        (.byName "posts") "p1" (.obj [("title", .str "hello")])).1 = .ok () ∧
    getEntry
        { collections := [{ name := "posts", schema := ⟨[("title", .string)]⟩ }],
          globals := [] }
        (setEntry
          { collections := [{ name := "posts", schema := ⟨[("title", .string)]⟩ }],
            globals := [] }
          { entries := [], dirs := [], assets := [] }
          (.byName "posts") "p1" (.obj [("title", .str "hello")])).2
        (.byName "posts") "p1" none
      = .ok (some (.obj [("title", .str "hello")])) :=
  setEntry_getEntry_roundtrip
    { collections := [{ name := "posts", schema := ⟨[("title", .string)]⟩ }],
      globals := [] }
    { entries := [], dirs := [], assets := [] }
    "posts" { name := "posts", schema := ⟨[("title", .string)]⟩ } "p1"
    (.obj [("title", .str "hello")]) (by decide) (by decide)

/-! ## C2 -/

/-- C2: a payload failing the schema check makes `setEntry` raise an error
carrying the aggregated field-level validation detail, and no entry file is
written or overwritten — the entry files are exactly those of the state
before the call (the only disk effect that has already happened is the
`mkdir` of the collection directory). -/
theorem setEntry_invalid_rejected (api : LocalApi) (st : ContentState)
    (n : String) (c : Collection) (id : String) (data : JValue)
    (hreg : lookupCollection api n = some c)
    (hinvalid : validateEntry c.schema data = false) :
    (setEntry api st (.byName n) id data).1
      = .error (errorsText (validationErrors c.schema data)) ∧
    (setEntry api st (.byName n) id data).2.entries = st.entries ∧
    validationErrors c.schema data ≠ [] := by
  have hres : getCollectionRef api (.byName n) = .ok c := by
    simp [getCollectionRef, hreg]
  have herrs : (validationErrors c.schema data).isEmpty = false := hinvalid
  refine ⟨?_, ?_, ?_⟩
  · simp [setEntry, hres, herrs]
  · simp [setEntry, hres, herrs, entries_mkdir]
  · intro hnil
    rw [hnil] at herrs
    simp at herrs

/-- Witness for C2: a payload missing the required `title` field. -/
theorem setEntry_invalid_rejected_witness :
    (setEntry
        { collections := [{ name := "posts", schema := ⟨[("title", .string)]⟩ }],
          globals := [] }
        { entries := [(("posts", "p1"), .obj [("title", .str "old")])],
          dirs := ["posts"], assets := [] }
        (.byName "posts") "p1" (.obj [("x", .num 1)])).1
      = .error (errorsText (validationErrors ⟨[("title", .string)]⟩
          (.obj [("x", .num 1)]))) ∧
    (setEntry
        { collections := [{ name := "posts", schema := ⟨[("title", .string)]⟩ }],
          globals := [] }
        { entries := [(("posts", "p1"), .obj [("title", .str "old")])],
          dirs := ["posts"], assets := [] }
        (.byName "posts") "p1" (.obj [("x", .num 1)])).2.entries
      = [(("posts", "p1"), .obj [("title", .str "old")])] ∧
    validationErrors (⟨[("title", .string)]⟩ : Schema) (.obj [("x", .num 1)]) ≠ [] := by
  have h := setEntry_invalid_rejected
    { collections := [{ name := "posts", schema := ⟨[("title", .string)]⟩ }],
      globals := [] }
    { entries := [(("posts", "p1"), .obj [("title", .str "old")])],
      dirs := ["posts"], assets := [] }
    "posts" { name := "posts", schema := ⟨[("title", .string)]⟩ } "p1"
    (.obj [("x", .num 1)]) (by decide) (by decide)
  exact ⟨h.1, h.2.1, h.2.2⟩

/-! ## C3 -/

/-- A registry with one collection `a` and no others. -/
def refApi : LocalApi :=
  { collections := [{ name := "a", schema := ⟨[]⟩ }], globals := [] }

/-- An entry of `a` whose `ref` field references the unregistered collection
`missing`. -/
def refEntry : JValue :=
  .obj [("ref", .obj [("id", .str "x"), ("collection", .str "missing")])]

/-- A content state holding `refEntry` at `a/e1.json`. -/
def refState : ContentState :=
  { entries := [(("a", "e1"), refEntry)], dirs := ["a"], assets := [] }

/-- C3 counterexample: `getEntry` with an `include` whose reference targets
an unregistered collection does not raise — the nested `Collection missing
not found` error is thrown inside the outer `try` block and the `catch`
swallows it into a `null` result. -/
theorem getEntry_nested_not_found_swallowed :
    getEntry refApi refState (.byName "a") "e1" (some ["ref"]) = .ok none := by
  decide

theorem truthy_of_getField {e : JValue} {k : String} {v : JValue}
    (h : e.getField k = some v) : e.truthy = true := by
  cases e <;> simp_all [JValue.getField, JValue.truthy]

/-- C3 (amended): resolving a collection or global by an unregistered name
raises a `not found` error in `getEntry`, `getEntries`, `setEntry` and
`getGlobalValue`, and the nested resolution performed by the `include` loop
of `getEntries` also raises (the error propagates out of the call); but the
same nested resolution inside `getEntry` is silently swallowed into a `null`
result, because the include loop of `getEntry` runs inside its `try` block. -/
theorem registry_not_found_raises :
    (∀ api st n id inc, lookupCollection api n = none →
      getEntry api st (.byName n) id inc
        = .error ("Collection " ++ n ++ " not found")) ∧
    (∀ api st n opts, lookupCollection api n = none →
      getEntries api st (.byName n) opts
        = .error ("Collection " ++ n ++ " not found")) ∧
    (∀ api st n id data, lookupCollection api n = none →
      (setEntry api st (.byName n) id data).1
        = .error ("Collection " ++ n ++ " not found")) ∧
    (∀ api st n id, lookupCollection api n = none →
      (deleteEntry api st (.byName n) id).1
        = .error ("Collection " ++ n ++ " not found")) ∧
    (∀ api st n, lookupGlobal api n = none →
      getGlobalValue api st (.byName n)
        = .error ("Global " ++ n ++ " not found")) ∧
    (∀ api st n c e inc value idv target,
      lookupCollection api n = some c →
      st.dirs.contains c.name = true →
      entriesOf st c.name = [e] →
      e.getField inc = some value →
      value.getField "id" = some idv → idv.truthy = true →
      value.getField "collection" = some (.str target) → target ≠ "" →
      lookupCollection api target = none →
      getEntries api st (.byName n) { includeOpt := some [inc] }
        = .error ("Collection " ++ target ++ " not found")) ∧
    (∀ api st n c id e inc value idv target,
      lookupCollection api n = some c →
      lookupEntry st c.name id = some e →
      e.getField inc = some value →
      value.getField "id" = some idv → idv.truthy = true →
      value.getField "collection" = some (.str target) → target ≠ "" →
      lookupCollection api target = none →
      getEntry api st (.byName n) id (some [inc]) = .ok none) := by
  refine ⟨?_, ?_, ?_, ?_, ?_, ?_, ?_⟩
  · intro api st n id inc h
    simp [getEntry, getCollectionRef, h]
  · intro api st n opts h
    simp [getEntries, getCollectionRef, h]
  · intro api st n id data h
    simp [setEntry, getCollectionRef, h]
  · intro api st n id h
    simp [deleteEntry, getCollectionRef, h]
  · intro api st n h
    simp [getGlobalValue, getGlobalRef, h]
  · intro api st n c e inc value idv target hreg hdir hlist hfield hid htruthy hcol
      htarget hmiss
    have hres : getCollectionRef api (.byName n) = .ok c := by
      simp [getCollectionRef, hreg]
    have htt : JValue.truthy (.str target) = true := by
      simp [JValue.truthy, htarget]
    have hstep : includeStep api st e inc = .error ("Collection " ++ target ++ " not found") := by
      simp [includeStep, hfield, hid, hcol, htruthy, htt, getEntryData, hmiss]
    have hresolve : resolveIncludes api st [inc] e
        = .error ("Collection " ++ target ++ " not found") := by
      simp [resolveIncludes, List.foldlM, hstep]
    have hmem : c.name ∈ st.dirs := by simpa using hdir
    simp [getEntries, hres, hmem, pagedEntries, filteredEntries, hlist,
      applySorts, List.mapM, List.mapM.loop, hresolve]
  · intro api st n c id e inc value idv target hreg hlook hfield hid htruthy hcol
      htarget hmiss
    have hres : getCollectionRef api (.byName n) = .ok c := by
      simp [getCollectionRef, hreg]
    have htt : JValue.truthy (.str target) = true := by
      simp [JValue.truthy, htarget]
    have hstep : includeStep api st e inc = .error ("Collection " ++ target ++ " not found") := by
      simp [includeStep, hfield, hid, hcol, htruthy, htt, getEntryData, hmiss]
    have hresolve : resolveIncludes api st [inc] e
        = .error ("Collection " ++ target ++ " not found") := by
      simp [resolveIncludes, List.foldlM, hstep]
    simp [getEntry, hres, getEntryBody, hlook, truthy_of_getField hfield, hresolve,
      Except.map]

/-- Witness for C3 (amended), instantiating every conjunct concretely. -/
theorem registry_not_found_raises_witness :
    getEntry refApi refState (.byName "nope") "e1" none
      = .error ("Collection " ++ "nope" ++ " not found") ∧
    getEntries refApi refState (.byName "nope") {}
      = .error ("Collection " ++ "nope" ++ " not found") ∧
    (setEntry refApi refState (.byName "nope") "e1" .null).1
      = .error ("Collection " ++ "nope" ++ " not found") ∧
    (deleteEntry refApi refState (.byName "nope") "e1").1
      = .error ("Collection " ++ "nope" ++ " not found") ∧
    getGlobalValue refApi refState (.byName "g")
      = .error ("Global " ++ "g" ++ " not found") ∧
    getEntries refApi refState (.byName "a") { includeOpt := some ["ref"] }
      = .error ("Collection " ++ "missing" ++ " not found") ∧
    getEntry refApi refState (.byName "a") "e1" (some ["ref"]) = .ok none := by
  have h := registry_not_found_raises
  refine ⟨h.1 refApi refState "nope" "e1" none (by decide),
    h.2.1 refApi refState "nope" {} (by decide),
    h.2.2.1 refApi refState "nope" "e1" .null (by decide),
    h.2.2.2.1 refApi refState "nope" "e1" (by decide),
    h.2.2.2.2.1 refApi refState "g" (by decide),
    h.2.2.2.2.2.1 refApi refState "a" { name := "a", schema := ⟨[]⟩ } refEntry "ref"
      (.obj [("id", .str "x"), ("collection", .str "missing")]) (.str "x") "missing"
      (by decide) (by decide) (by decide) (by decide) (by decide) (by decide)
      (by decide) (by decide) (by decide),
    h.2.2.2.2.2.2 refApi refState "a" { name := "a", schema := ⟨[]⟩ } "e1" refEntry "ref"
      (.obj [("id", .str "x"), ("collection", .str "missing")]) (.str "x") "missing"
      (by decide) (by decide) (by decide) (by decide) (by decide) (by decide)
      (by decide) (by decide)⟩

/-! ## C6 -/

/-- A registry with one collection `c` with empty schema. -/
def c6Api : LocalApi :=
  { collections := [{ name := "c", schema := ⟨[]⟩ }], globals := [] }

/-- A content state with two entries of `c`, one with `s = "p"`. -/
def c6State : ContentState :=
  { entries := [(("c", "a"), .obj [("s", .str "p")]), (("c", "b"), .obj [("s", .str "d")])],
    dirs := ["c"], assets := [] }

/-- C6 counterexample: when the collection directory does not exist,
`getEntries` returns the early empty result without a `count` field even
though `includeCount` was requested — so `count` is not present if and only
if `includeCount` was requested. -/
theorem getEntries_includeCount_missing_dir_no_count :
    getEntries c6Api { entries := [], dirs := [], assets := [] } (.byName "c")
      { includeCount := true }
      = .ok { entries := [], limit := 1000, offset := 0, count := none } := by
  decide

theorem except_pure_eq_ok {ε α : Type} (a : α) : (pure a : Except ε α) = Except.ok a := rfl

theorem applySorts_nil (ss : List SortKey) : applySorts ss [] = [] := by
  induction ss with
  | nil => rfl
  | cons k ss ih =>
    show applySorts ss (sortPass k []) = []
    exact ih

/-- C6 (amended): when the collection directory exists, the `count` field of
a successful `getEntries` result is present exactly when `includeCount` was
requested, and its value is the post-filter, pre-pagination total; when the
directory is missing, the early return carries no `count` even when
`includeCount` was requested. -/
theorem getEntries_count_semantics (api : LocalApi) (st : ContentState)
    (n : String) (c : Collection) (opts : GetEntriesOptions)
    (hreg : lookupCollection api n = some c) :
    (st.dirs.contains c.name = true →
      ∀ r, getEntries api st (.byName n) opts = .ok r →
        r.count = (if opts.includeCount then
          some (filteredEntries st c.name opts.filters).length else none)) ∧
    (st.dirs.contains c.name = false →
      getEntries api st (.byName n) opts =
        .ok { entries := [], limit := opts.limit.getD 1000,
              offset := opts.offset.getD 0, count := none }) := by
  have hres : getCollectionRef api (.byName n) = .ok c := by
    simp [getCollectionRef, hreg]
  constructor
  · intro hdir r hr
    have hmem : c.name ∈ st.dirs := by simpa using hdir
    simp only [getEntries, hres] at hr
    split at hr
    next h => simp [hmem] at h
    next =>
      split at hr
      · cases hr
      · cases hr
        rfl
  · intro hdir
    have hmem : ¬(c.name ∈ st.dirs) := by simpa using hdir
    simp [getEntries, hres, hmem]

/-- Witness for C6 (amended): a filter keeping one of two entries yields
`count = some 1` with `includeCount`, and the missing-directory early return
yields no `count`. -/
theorem getEntries_count_semantics_witness :
    ({ entries := [.obj [("s", .str "p")]], limit := 1000, offset := 0,
        count := some 1 } : GetEntriesResult).count
      = (if true then
          some (filteredEntries c6State "c" (some [("s", .str "p")])).length
         else none) ∧
    getEntries c6Api { entries := [], dirs := ["x"], assets := [] } (.byName "c")
      { includeCount := true }
      = .ok { entries := [], limit := 1000, offset := 0, count := none } :=
  ⟨(getEntries_count_semantics c6Api c6State "c" { name := "c", schema := ⟨[]⟩ }
      { includeCount := true, filters := some [("s", .str "p")] } (by decide)).1
      (by decide) _ (by decide),
   (getEntries_count_semantics c6Api { entries := [], dirs := ["x"], assets := [] }
      "c" { name := "c", schema := ⟨[]⟩ }
      { includeCount := true } (by decide)).2 (by decide)⟩

/-! ## C10 -/

/-- C10: `getEntries` honors an explicit `limit` of `0` (zero entries come
back, and the reported `limit` is `0`; the default is `1000` when the option
is absent), whereas `listAssets` applies its limit only when truthy, so a
`limit` of `0` behaves exactly like an absent limit. -/
theorem limit_zero_semantics :
    (∀ api st n c opts, lookupCollection api n = some c → opts.limit = some 0 →
      ∃ r, getEntries api st (.byName n) opts = .ok r ∧
        r.entries = [] ∧ r.limit = 0) ∧
    (∀ api st n c opts r, lookupCollection api n = some c → opts.limit = none →
      getEntries api st (.byName n) opts = .ok r → r.limit = 1000) ∧
    (∀ st proc search startAfter,
      listAssets st proc { search := search, limit := some 0, startAfter := startAfter }
        = listAssets st proc
            { search := search, limit := none, startAfter := startAfter }) := by
  refine ⟨?_, ?_, ?_⟩
  · intro api st n c opts hreg hlim
    have hres : getCollectionRef api (.byName n) = .ok c := by
      simp [getCollectionRef, hreg]
    by_cases hmem : c.name ∈ st.dirs
    · refine
        ⟨{ entries := [], limit := 0, offset := opts.offset.getD 0,
           count := if opts.includeCount then
             some (filteredEntries st c.name opts.filters).length else none },
         ?_, rfl, rfl⟩
      simp [getEntries, hres, hmem, hlim, pagedEntries, applySorts_nil,
        List.mapM.loop, except_pure_eq_ok]
    · exact ⟨{ entries := [], limit := 0, offset := opts.offset.getD 0, count := none },
        by simp [getEntries, hres, hmem, hlim], rfl, rfl⟩
  · intro api st n c opts r hreg hlim hr
    have hres : getCollectionRef api (.byName n) = .ok c := by
      simp [getCollectionRef, hreg]
    simp only [getEntries, hres, hlim] at hr
    split at hr
    next =>
      cases hr
      rfl
    next =>
      split at hr
      · cases hr
      · cases hr
        rfl
  · intro st proc search startAfter
    rfl

/-- Witness for C10 at a concrete registry, state and options. -/
theorem limit_zero_semantics_witness :
    (∃ r, getEntries c6Api c6State (.byName "c") { limit := some 0 } = .ok r ∧
      r.entries = [] ∧ r.limit = 0) ∧
    ({ entries := [.obj [("s", .str "p")], .obj [("s", .str "d")]], limit := 1000,
        offset := 0, count := none } : GetEntriesResult).limit = 1000 ∧
    listAssets c6State none { search := some "a", limit := some 0, startAfter := none }
      = listAssets c6State none { search := some "a", limit := none, startAfter := none } :=
  ⟨(limit_zero_semantics).1 c6Api c6State "c" (⟨"c", ⟨[]⟩⟩ : Collection)
      { limit := some 0 } (by decide) rfl,
   (limit_zero_semantics).2.1 c6Api c6State "c" (⟨"c", ⟨[]⟩⟩ : Collection)
      ({} : GetEntriesOptions)
      { entries := [.obj [("s", .str "p")], .obj [("s", .str "d")]], limit := 1000,
        offset := 0, count := none } (by decide) rfl (by decide),
   (limit_zero_semantics).2.2 c6State none (some "a") none⟩

/-! ## C7

The uniqueness loop of `uploadAsset` terminates with a genuinely fresh name:
the candidates `base-1ext`, `base-2ext`, … are pairwise distinct (decimal
rendering is injective), so among `names.length + 1` of them one is free. -/

/-- Decimal value of a digit string (left fold), the inverse of
`natToDec`. -/
def decVal (cs : List Char) : Nat :=
  cs.foldl (fun acc c => acc * 10 + (c.toNat - 48)) 0

theorem toNat_digitChar (d : Nat) (h : d < 10) :
    (Char.ofNat (48 + d)).toNat = 48 + d := by
  interval_cases d <;> decide

theorem toList_digitStr (d : Nat) : (digitStr d).toList = [Char.ofNat (48 + d)] :=
  rfl

theorem toList_append (a b : String) : (a ++ b).toList = a.toList ++ b.toList := by
  cases a
  cases b
  rfl

theorem decVal_append_digit (l : List Char) (c : Char) :
    decVal (l ++ [c]) = decVal l * 10 + (c.toNat - 48) := by
  unfold decVal
  rw [List.foldl_append]
  rfl

theorem decVal_digitStr (d : Nat) (h : d < 10) :
    decVal (digitStr d).toList = d := by
  rw [toList_digitStr]
  unfold decVal
  simp [List.foldl, toNat_digitChar d h]

theorem decVal_natToDecAux (fuel n : Nat) (h : n ≤ fuel) :
    decVal (natToDecAux fuel n).toList = n := by
  induction fuel generalizing n with
  | zero =>
    have : n = 0 := Nat.le_zero.mp h
    subst this
    exact decVal_digitStr 0 (by omega)
  | succ fuel ih =>
    rw [natToDecAux]
    by_cases h10 : n < 10
    · rw [if_pos h10]
      exact decVal_digitStr n h10
    · rw [if_neg h10]
      rw [toList_append, toList_digitStr, decVal_append_digit]
      have hdiv : n / 10 ≤ fuel := by
        have hlt : n / 10 < n := Nat.div_lt_self (by omega) (by omega)
        omega
      rw [ih (n / 10) hdiv, toNat_digitChar (n % 10) (Nat.mod_lt n (by omega))]
      have := Nat.div_add_mod n 10
      omega

theorem decVal_natToDec (n : Nat) : decVal (natToDec n).toList = n :=
  decVal_natToDecAux n n (Nat.le_refl n)

theorem natToDec_inj : Function.Injective natToDec := by
  intro i j h
  have h1 := congrArg (fun s => decVal s.toList) h
  simp only at h1
  rw [decVal_natToDec, decVal_natToDec] at h1
  exact h1

theorem candName_inj (base ext : String) :
    Function.Injective (candName base ext) := by
  intro i j h
  unfold candName at h
  have h2 := congrArg String.toList h
  simp only [toList_append] at h2
  have h3 := List.append_cancel_left (List.append_cancel_right h2)
  exact natToDec_inj (String.ext h3)

theorem exists_free_cand (names : List String) (base ext : String) :
    ∃ j, 1 ≤ j ∧ j ≤ names.length + 1 ∧ candName base ext j ∉ names := by
  by_contra hcon
  push_neg at hcon
  have hsub : ((List.range' 1 (names.length + 1)).map (candName base ext)).toFinset
      ⊆ names.toFinset := by
    intro x hx
    rw [List.mem_toFinset] at hx ⊢
    rw [List.mem_map] at hx
    obtain ⟨j, hj, rfl⟩ := hx
    rw [List.mem_range'_1] at hj
    exact hcon j hj.1 (by omega)
  have hnodup : ((List.range' 1 (names.length + 1)).map (candName base ext)).Nodup :=
    List.Nodup.map (candName_inj base ext) (List.nodup_range' 1 (names.length + 1))
  have h1 : ((List.range' 1 (names.length + 1)).map (candName base ext)).toFinset.card
      = names.length + 1 := by
    rw [List.toFinset_card_of_nodup hnodup]
    simp
  have h2 : names.toFinset.card ≤ names.length := names.toFinset_card_le
  have h3 := Finset.card_le_card hsub
  omega

theorem findFree_not_mem (names : List String) (base ext : String) :
    ∀ fuel c, (∃ j, c ≤ j ∧ j < c + fuel ∧ candName base ext j ∉ names) →
      findFree names base ext fuel c ∉ names := by
  intro fuel
  induction fuel with
  | zero =>
    rintro c ⟨j, h1, h2, _⟩
    omega
  | succ fuel ih =>
    rintro c ⟨j, h1, h2, h3⟩
    rw [findFree]
    by_cases hc : names.contains (candName base ext c)
    · rw [if_pos hc]
      apply ih
      have hjc : j ≠ c := by
        intro he
        subst he
        exact h3 (by simpa using hc)
      exact ⟨j, by omega, by omega, h3⟩
    · rw [if_neg hc]
      simpa using hc

theorem uniqueFilename_not_mem (names : List String) (filename : String) :
    uniqueFilename names filename ∉ names := by
  unfold uniqueFilename
  by_cases h : names.contains filename
  · rw [if_pos h]
    apply findFree_not_mem
    obtain ⟨j, h1, h2, h3⟩ :=
      exists_free_cand names (basenameMinusExt filename (extname filename))
        (extname filename)
    exact ⟨j, h1, by omega, h3⟩
  · rw [if_neg h]
    simpa using h

theorem find?_isSome_of_mem_fst {α : Type} (l : List (String × α)) (nm : String)
    (h : nm ∈ l.map (·.1)) : (l.find? (fun p => p.1 == nm)).isSome = true := by
  induction l with
  | nil => simp at h
  | cons p l ih =>
    rw [List.map_cons, List.mem_cons] at h
    by_cases hp : (p.1 == nm) = true
    · simp [List.find?, hp]
    · simp only [List.find?, hp, cond_false]
      rcases h with h | h
      · exact absurd (by simp [h]) hp
      · exact ih h

theorem any_fst_eq_false_of_not_mem {α : Type} (l : List (String × α)) (nm : String)
    (h : nm ∉ l.map (·.1)) : (l.any (fun p => p.1 == nm)) = false := by
  rw [List.any_eq_false]
  intro p hp
  simp only [beq_iff_eq]
  intro he
  exact h (List.mem_map.mpr ⟨p, hp, he⟩)

/-- A content state with no files at all. -/
def c7Empty : ContentState :=
  { entries := [], dirs := [], assets := [] }

/-- C7: `uploadAsset` never overwrites an existing asset file — the stored
filename is fresh, the write appends a new file and every pre-existing file
still reads back unchanged; in particular two successive uploads both
requesting `logo.png` (from a state with no assets) store `logo.png` and
`logo-1.png`, and both read back their own bytes via `getAsset`. -/
theorem uploadAsset_never_overwrites :
    (∀ st file filename ct,
      (uploadAsset st file filename ct).1.filename ∉ assetNames st ∧
      (uploadAsset st file filename ct).2.assets
        = st.assets ++ [((uploadAsset st file filename ct).1.filename, file)] ∧
      (∀ nm, nm ∈ assetNames st →
        lookupAsset (uploadAsset st file filename ct).2 nm = lookupAsset st nm)) ∧
    ((uploadAsset c7Empty [1] "logo.png" none).1.filename = "logo.png" ∧
      (uploadAsset (uploadAsset c7Empty [1] "logo.png" none).2
          [2] "logo.png" none).1.filename = "logo-1.png" ∧
      getAsset (uploadAsset (uploadAsset c7Empty [1] "logo.png" none).2
          [2] "logo.png" none).2 none "logo.png" {}
        = some { data := [1], contentType := some "image/png",
                 width := none, height := none } ∧
      getAsset (uploadAsset (uploadAsset c7Empty [1] "logo.png" none).2
          [2] "logo.png" none).2 none "logo-1.png" {}
        = some { data := [2], contentType := some "image/png",
                 width := none, height := none }) := by
  have hfresh : ∀ st file filename ct,
      (uploadAsset st file filename ct).1.filename ∉ assetNames st := by
    intro st file filename ct
    show uniqueFilename (assetNames (mkdir st "assets")) filename ∉ assetNames st
    have : assetNames (mkdir st "assets") = assetNames st := rfl
    rw [this] at *
    exact uniqueFilename_not_mem (assetNames st) filename
  have happend : ∀ st file filename ct,
      (uploadAsset st file filename ct).2.assets
        = st.assets ++ [((uploadAsset st file filename ct).1.filename, file)] := by
    intro st file filename ct
    have h1 := hfresh st file filename ct
    show writeAsset st.assets (uniqueFilename (assetNames (mkdir st "assets")) filename) file
      = st.assets ++ [(uniqueFilename (assetNames (mkdir st "assets")) filename, file)]
    unfold writeAsset
    rw [if_neg]
    rw [Bool.not_eq_true]
    exact any_fst_eq_false_of_not_mem st.assets _ h1
  refine ⟨fun st file filename ct => ⟨hfresh st file filename ct,
    happend st file filename ct, ?_⟩, ?_⟩
  · intro nm hnm
    show lookupAsset (uploadAsset st file filename ct).2 nm = lookupAsset st nm
    unfold lookupAsset
    rw [show (uploadAsset st file filename ct).2.assets
        = st.assets ++ [((uploadAsset st file filename ct).1.filename, file)]
      from happend st file filename ct]
    rw [List.find?_append]
    have hsome := find?_isSome_of_mem_fst st.assets nm hnm
    rcases hfind : st.assets.find? (fun p => p.1 == nm) with _ | q
    · rw [hfind] at hsome
      simp at hsome
    · rw [hfind]
      rfl
  · exact ⟨by decide, by decide, by decide, by decide⟩

/-- A one-asset state used to witness C7. -/
def c7State : ContentState :=
  { entries := [], dirs := ["assets"], assets := [("a.png", [7])] }

/-- Witness for C7 at concrete bytes and a concrete prior state. -/
theorem uploadAsset_never_overwrites_witness :
    (uploadAsset c7State [1] "a.png" none).1.filename ∉ assetNames c7State ∧
    lookupAsset (uploadAsset c7State [1] "a.png" none).2 "a.png"
      = lookupAsset c7State "a.png" ∧
    (uploadAsset (uploadAsset c7Empty [1] "logo.png" none).2
        [2] "logo.png" none).1.filename = "logo-1.png" := by
  have h := uploadAsset_never_overwrites
  exact ⟨(h.1 c7State [1] "a.png" none).1,
    (h.1 c7State [1] "a.png" none).2.2 "a.png" (by decide),
    h.2.2.1⟩

/-! ## C8 -/

/-- A concrete image-processing collaborator: fixed metadata, transform
appends a marker byte. -/
def c8Proc : ImageProc :=
  { metadata := fun _ => (some 400, some 300), transform := fun _ b => b ++ [9] }

/-- A content state with one stored image `photo.jpg`. -/
def c8State : ContentState :=
  { entries := [], dirs := ["assets"], assets := [("photo.jpg", [1, 2, 3])] }

/-- C8 counterexample: `getAsset` with `format: "webp"` re-encodes the bytes
(the transform ran — the marker byte is there) but still reports the
`contentType` derived from the stored filename, `image/jpeg`; the content
type does not change to reflect the requested output format. -/
theorem getAsset_format_leaves_contentType :
    getAsset c8State (some c8Proc) "photo.jpg" { format := some "webp" }
      = some { data := [1, 2, 3, 9], contentType := some "image/jpeg",
               width := some 400, height := some 300 } := by
  decide

/-- C8 (amended): the `contentType` of every successful `getAsset` result is
the extension-derived MIME type of the stored filename, whatever transform
options (including `format`) were given and whatever the image processor
does. -/
theorem getAsset_contentType_from_filename (st : ContentState)
    (proc : Option ImageProc) (filename : String) (opts : TransformOptions) :
    ∀ r ∈ getAsset st proc filename opts, r.contentType = getContentType filename := by
  intro r hr
  unfold getAsset at hr
  rcases hl : lookupAsset st filename with _ | data <;> rw [hl] at hr
  · cases hr
  · dsimp only at hr
    split at hr
    · split at hr
      · rw [Option.mem_def, Option.some.injEq] at hr
        rw [← hr]
      · split at hr <;>
        · rw [Option.mem_def, Option.some.injEq] at hr
          rw [← hr]
    · rw [Option.mem_def, Option.some.injEq] at hr
      rw [← hr]

/-- Witness for C8 (amended) at a concrete state, processor and options. -/
theorem getAsset_contentType_from_filename_witness :
    ({ data := [1, 2, 3, 9], contentType := some "image/jpeg",
       width := some 400, height := some 300 } : AssetData).contentType
      = getContentType "photo.jpg" :=
  getAsset_contentType_from_filename c8State (some c8Proc) "photo.jpg"
    { format := some "webp" }
    { data := [1, 2, 3, 9], contentType := some "image/jpeg",
      width := some 400, height := some 300 } (by decide)

/-! ## C9 -/

theorem findIdx?_isSome_of_mem (l : List String) (sa : String) (h : sa ∈ l) :
    (l.findIdx? (fun f => f == sa)).isSome = true := by
  induction l with
  | nil => cases h
  | cons x l ih =>
    by_cases hx : (x == sa) = true
    · simp [List.findIdx?_cons, hx]
    · rw [List.findIdx?_cons, if_neg (by simpa using hx)]
      rcases List.mem_cons.mp h with h1 | h1
      · exact absurd (by simp [h1]) hx
      · simpa using ih h1

theorem cursor_drop_eq_dropWhile (l : List String) (sa : String) (h : sa ∈ l) :
    (match l.findIdx? (fun f => f == sa) with
     | some i => l.drop (i + 1)
     | none => l) = (l.dropWhile (fun f => !(f == sa))).drop 1 := by
  induction l with
  | nil => cases h
  | cons x l ih =>
    by_cases hx : (x == sa) = true
    · simp [List.findIdx?_cons, hx, List.dropWhile_cons]
    · have hm : sa ∈ l := by
        rcases List.mem_cons.mp h with h1 | h1
        · exact absurd (by simp [h1]) hx
        · exact h1
      have hs := findIdx?_isSome_of_mem l sa hm
      rcases hf : l.findIdx? (fun f => f == sa) with _ | j
      · rw [hf] at hs
        simp at hs
      · have hih := ih hm
        rw [hf] at hih
        rw [List.findIdx?_cons, if_neg (by simpa using hx), List.findIdx?_succ, hf,
          List.dropWhile_cons, if_pos (by simp [hx])]
        show (x :: l).drop (j + 1 + 1) = (l.dropWhile (fun f => !(f == sa))).drop 1
        rw [List.drop_succ_cons]
        exact hih

/-- C9: `listAssets` applies the case-insensitive search filter first, then
cuts to the names strictly after `startAfter` (in listing order, relative to
the filtered list), then truncates to `limit`; and with a search string every
returned key contains it case-insensitively. -/
theorem mem_limitStep {l : List String} {lim : Option Nat} {f : String}
    (hf : f ∈ (match lim with
      | some n => if n == 0 then l else l.take n
      | none => l)) : f ∈ l := by
  rcases lim with _ | n
  · exact hf
  · dsimp only at hf
    split at hf
    · exact hf
    · exact List.mem_of_mem_take hf

theorem mem_cursorStep {l : List String} {cur : Option String} {f : String}
    (hf : f ∈ (match cur with
      | some sa =>
        if sa == "" then l
        else
          (match l.findIdx? (fun g => g == sa) with
           | some i => l.drop (i + 1)
           | none => l)
      | none => l)) : f ∈ l := by
  rcases cur with _ | sa
  · exact hf
  · dsimp only at hf
    split at hf
    · exact hf
    · split at hf
      · exact List.mem_of_mem_drop hf
      · exact hf

theorem map_key_assetRecord (st : ContentState) (proc : Option ImageProc)
    (l : List String) :
    (l.map (assetRecord st proc)).map (fun a => a.key) = l := by
  rw [List.map_map]
  have : ((fun a => a.key) ∘ assetRecord st proc) = fun f => f := by
    funext f
    rfl
  rw [this]
  exact List.map_id' l

theorem listAssets_pipeline :
    (∀ st proc s sa n, st.dirs.contains "assets" = true → s ≠ "" → sa ≠ "" →
      n ≠ 0 →
      sa ∈ (assetNames st).filter (fun f => strContainsCI f s) →
      (listAssets st proc
          { search := some s, limit := some n, startAfter := some sa }).map
          (fun a => a.key)
        = ((((assetNames st).filter (fun f => strContainsCI f s)).dropWhile
            (fun f => !(f == sa))).drop 1).take n) ∧
    (∀ st proc opts a s, opts.search = some s → s ≠ "" →
      a ∈ listAssets st proc opts → strContainsCI a.key s = true) ∧
    (∀ st proc sa n, st.dirs.contains "assets" = true → sa ≠ "" → n ≠ 0 →
      sa ∈ assetNames st →
      (listAssets st proc
          { search := none, limit := some n, startAfter := some sa }).map
          (fun a => a.key)
        = (((assetNames st).dropWhile (fun f => !(f == sa))).drop 1).take n) := by
  refine ⟨?_, ?_, ?_⟩
  · intro st proc s sa n hdir hs hsa hn hmem
    have hd : "assets" ∈ st.dirs := by simpa using hdir
    have hs2 : (s == "") = false := by simpa using hs
    have hsa2 : (sa == "") = false := by simpa using hsa
    have hn2 : (n == 0) = false := by simpa using hn
    simp only [listAssets, hd, List.elem_eq_mem, eq_self_iff_true, decide_True,
      Bool.not_true, Bool.false_eq_true, if_false, hs2, hsa2, hn2]
    rw [cursor_drop_eq_dropWhile _ _ hmem, map_key_assetRecord]
  · intro st proc opts a s hsearch hs ha
    simp only [listAssets] at ha
    split at ha
    · cases ha
    · rcases List.mem_map.mp ha with ⟨f, hf, rfl⟩
      show strContainsCI f s = true
      have h1 := mem_cursorStep (mem_limitStep hf)
      rw [hsearch] at h1
      dsimp only at h1
      rw [if_neg (by simpa using hs)] at h1
      exact (List.mem_filter.mp h1).2
  · intro st proc sa n hdir hsa hn hmem
    have hd : "assets" ∈ st.dirs := by simpa using hdir
    have hsa2 : (sa == "") = false := by simpa using hsa
    have hn2 : (n == 0) = false := by simpa using hn
    simp only [listAssets, hd, List.elem_eq_mem, eq_self_iff_true, decide_True,
      Bool.not_true, Bool.false_eq_true, if_false, hsa2, hn2]
    rw [cursor_drop_eq_dropWhile _ _ hmem, map_key_assetRecord]

/-- A three-asset state used to witness the search conjunct of C9. -/
def c9StateA : ContentState :=
  { entries := [], dirs := ["assets"],
    assets := [("MyLogo.png", [1]), ("b.png", [2]), ("logoB.png", [3])] }

/-- A three-asset state used to witness the cursor conjunct of C9. -/
def c9StateB : ContentState :=
  { entries := [], dirs := ["assets"],
    assets := [("a.png", [1]), ("b.png", [2]), ("c.png", [3])] }

/-- Witness for C9 at a concrete assets directory. -/
theorem listAssets_pipeline_witness :
    (listAssets c9StateA none
        { search := some "logo", limit := some 5,
          startAfter := some "MyLogo.png" }).map (fun a => a.key)
      = ((((assetNames c9StateA).filter
            (fun f => strContainsCI f "logo")).dropWhile
            (fun f => !(f == "MyLogo.png"))).drop 1).take 5 ∧
    (listAssets c9StateB none
        { search := none, limit := some 1, startAfter := some "b.png" }).map
        (fun a => a.key)
      = (((assetNames c9StateB).dropWhile
            (fun f => !(f == "b.png"))).drop 1).take 1 := by
  have h := listAssets_pipeline
  exact ⟨h.1 c9StateA none "logo" "MyLogo.png" 5
      (by decide) (by decide) (by decide) (by decide) (by decide),
    h.2.2 c9StateB none "b.png" 1
      (by decide) (by decide) (by decide) (by decide)⟩

/-! ## C4 -/

theorem applySorts_concat (ss : List SortKey) (s : SortKey) (l : List JValue) :
    applySorts (ss ++ [s]) l = sortPass s (applySorts ss l) := by
  rw [applySorts_append]
  rfl

theorem mem_filteredEntries_subset {st : ContentState} {col : String}
    {filters : Option (List (String × JValue))} {x : JValue}
    (hx : x ∈ filteredEntries st col filters) : x ∈ entriesOf st col := by
  unfold filteredEntries at hx
  rcases filters with _ | fs
  · exact hx
  · exact (List.mem_filter.mp hx).1

theorem mem_pagedEntries_subset {st : ContentState} {col : String}
    {filters : Option (List (String × JValue))} {offset : Option Nat}
    {limit : Nat} {x : JValue}
    (hx : x ∈ pagedEntries st col filters offset limit) : x ∈ entriesOf st col := by
  unfold pagedEntries at hx
  have h1 := List.mem_of_mem_take hx
  have h2 : x ∈ filteredEntries st col filters := by
    rcases offset with _ | o
    · exact h1
    · dsimp only at h1
      split at h1
      · exact h1
      · exact List.mem_of_mem_drop h1
  exact mem_filteredEntries_subset h2

/-- C4: with multiple sort pairs, `getEntries` runs one stable sort pass per
pair in declaration order (the result is the final pass applied to the
outcome of the earlier ones); consequently the LAST pair is the dominant
order of the returned entries — they come back sorted by it whenever its
comparator is consistent (transitive and total) on the entries involved —
and an earlier pass's order survives only between entries that tie on every
later pair (stability, which needs no consistency assumption). -/
theorem getEntries_multi_sort_passes (api : LocalApi) (st : ContentState)
    (n : String) (c : Collection) (ss : List SortKey) (s : SortKey)
    (filters : Option (List (String × JValue))) (offset limit : Option Nat)
    (incCount : Bool)
    (hreg : lookupCollection api n = some c)
    (hdir : st.dirs.contains c.name = true)
    (htrans : ∀ x ∈ entriesOf st c.name, ∀ y ∈ entriesOf st c.name,
      ∀ z ∈ entriesOf st c.name,
      leBy s x y = true → leBy s y z = true → leBy s x z = true)
    (htot : ∀ x ∈ entriesOf st c.name, ∀ y ∈ entriesOf st c.name,
      leBy s x y = true ∨ leBy s y x = true) :
    getEntries api st (.byName n)
        { includeCount := incCount, includeOpt := none, limit := limit,
          offset := offset, filters := filters, sort := some (ss ++ [s]) }
      = .ok { entries := sortPass s (applySorts ss
                (pagedEntries st c.name filters offset (limit.getD 1000))),
              limit := limit.getD 1000, offset := offset.getD 0,
              count := if incCount then
                some (filteredEntries st c.name filters).length else none } ∧
    (applySorts (ss ++ [s])
        (pagedEntries st c.name filters offset (limit.getD 1000))).Pairwise
      (fun a b => leBy s a b = true) ∧
    (∀ a b, tieOn s a b = true →
      List.Sublist [a, b]
        (applySorts ss (pagedEntries st c.name filters offset (limit.getD 1000))) →
      List.Sublist [a, b]
        (applySorts (ss ++ [s])
          (pagedEntries st c.name filters offset (limit.getD 1000)))) ∧
    (∀ (ss₂ : List SortKey) a b, (∀ k ∈ ss₂, tieOn k a b = true) →
      List.Sublist [a, b]
        (pagedEntries st c.name filters offset (limit.getD 1000)) →
      List.Sublist [a, b]
        (applySorts ss₂
          (pagedEntries st c.name filters offset (limit.getD 1000)))) := by
  have hres : getCollectionRef api (.byName n) = .ok c := by
    simp [getCollectionRef, hreg]
  have hmem : c.name ∈ st.dirs := by simpa using hdir
  refine ⟨?_, ?_, ?_, ?_⟩
  · simp [getEntries, hres, hmem, applySorts_concat]
  · rw [applySorts_concat]
    apply pairwise_stableSort
    · intro x hx y hy
      exact htot x (mem_pagedEntries_subset ((mem_applySorts ss x _).mp hx))
        y (mem_pagedEntries_subset ((mem_applySorts ss y _).mp hy))
    · intro x hx y hy z hz
      exact htrans x (mem_pagedEntries_subset ((mem_applySorts ss x _).mp hx))
        y (mem_pagedEntries_subset ((mem_applySorts ss y _).mp hy))
        z (mem_pagedEntries_subset ((mem_applySorts ss z _).mp hz))
  · intro a b htie hsub
    rw [applySorts_concat]
    rw [tieOn, Bool.and_eq_true] at htie
    exact pair_sublist_stableSort (leBy s) htie.1 hsub
  · intro ss₂ a b hties hsub
    exact pair_sublist_applySorts ss₂ hties hsub

/-- A registry with one collection `c4` with empty schema. -/
def c4Api : LocalApi :=
  { collections := [{ name := "c4", schema := ⟨[]⟩ }], globals := [] }

/-- Three entries with numeric fields `a` and `o` to sort by. -/
def c4State : ContentState :=
  { entries :=
      [(("c4", "e1"), .obj [("a", .num 2), ("o", .num 1)]),
       (("c4", "e2"), .obj [("a", .num 1), ("o", .num 1)]),
       (("c4", "e3"), .obj [("a", .num 3), ("o", .num 0)])],
    dirs := ["c4"], assets := [] }

/-- Witness for C4: two sort pairs over numeric fields (a consistent
comparator), concrete registry and entries. -/
theorem getEntries_multi_sort_passes_witness :
    getEntries c4Api c4State (.byName "c4")
        { includeCount := false, includeOpt := none, limit := none,
          offset := none, filters := none,
          sort := some ([("a", SortDir.asc)] ++ [("o", SortDir.desc)]) }
      = .ok { entries := sortPass ("o", SortDir.desc)
                (applySorts [("a", SortDir.asc)]
                  (pagedEntries c4State "c4" none none 1000)),
              limit := 1000, offset := 0, count := none } :=
  (getEntries_multi_sort_passes c4Api c4State "c4" { name := "c4", schema := ⟨[]⟩ }
    [("a", SortDir.asc)] ("o", SortDir.desc) none none none false
    (by decide) (by decide) (by decide) (by decide)).1

/-! ## C5 -/

/-- The value at the sort key is `null`/absent or an ISO-date string the
comparator can parse. -/
def nullOrISO (v : Option JValue) : Bool :=
  JValue.isNullish v ||
    (match v with
     | some (.str s) => (parseISODate s).isSome
     | _ => false)

/-- The order C5 asserts on the returned entries under a single descending
date sort: an entry may precede another only if the later one's sort field
is nullish (nulls last) or both are ISO dates in non-increasing
chronological order. -/
def descDateOrder (k : String) (a b : JValue) : Prop :=
  JValue.isNullish (b.getField k) = true ∨
  (∃ sa ta sb tb, a.getField k = some (.str sa) ∧ parseISODate sa = some ta ∧
    b.getField k = some (.str sb) ∧ parseISODate sb = some tb ∧ tb ≤ ta)

theorem nullOrISO_cases {v : Option JValue} (h : nullOrISO v = true) :
    JValue.isNullish v = true ∨
      ∃ s t, v = some (.str s) ∧ parseISODate s = some t := by
  unfold nullOrISO at h
  rcases v with _ | v
  · exact Or.inl rfl
  · rcases v with _ | b | i | s | l | o
    · exact Or.inl rfl
    · simp [JValue.isNullish] at h
    · simp [JValue.isNullish] at h
    · rw [Bool.or_eq_true] at h
      rcases h with h | h
      · simp [JValue.isNullish] at h
      · rcases Option.isSome_iff_exists.mp h with ⟨t, ht⟩
        exact Or.inr ⟨s, t, rfl, ht⟩
    · simp [JValue.isNullish] at h
    · simp [JValue.isNullish] at h

theorem isNullish_of_str_false (s : String) :
    JValue.isNullish (some (.str s)) = false := rfl

theorem leBy_eval (k : String) (d : SortDir) (a b : JValue) :
    leBy (k, d) a b = decide (cmpVals d (a.getField k) (b.getField k) ≤ 0) := rfl

theorem cmpVals_desc_nn {va vb : Option JValue}
    (hA : JValue.isNullish va = true) (hB : JValue.isNullish vb = true) :
    cmpVals .desc va vb = 0 := by
  simp [cmpVals, hA, hB]

theorem cmpVals_desc_ni {va vb : Option JValue} {sb : String}
    (hA : JValue.isNullish va = true) (hvb : vb = some (.str sb)) :
    cmpVals .desc va vb = 1 := by
  subst hvb
  simp [cmpVals, hA, isNullish_of_str_false]

theorem cmpVals_desc_in {va vb : Option JValue} {sa : String}
    (hva : va = some (.str sa)) (hB : JValue.isNullish vb = true) :
    cmpVals .desc va vb = -1 := by
  subst hva
  simp [cmpVals, hB, isNullish_of_str_false]

theorem cmpVals_desc_ii {va vb : Option JValue} {sa sb : String} {ta tb : Int}
    (hva : va = some (.str sa)) (hvb : vb = some (.str sb))
    (hpa : parseISODate sa = some ta) (hpb : parseISODate sb = some tb) :
    cmpVals .desc va vb = tb - ta := by
  subst hva
  subst hvb
  simp [cmpVals, isNullish_of_str_false, hpa, hpb]

theorem leBy_desc_iff {k : String} {a b : JValue}
    (ha : nullOrISO (a.getField k) = true) (hb : nullOrISO (b.getField k) = true) :
    (leBy (k, SortDir.desc) a b = true) ↔ descDateOrder k a b := by
  rcases nullOrISO_cases ha with hA | ⟨sa, ta, hva, hpa⟩ <;>
    rcases nullOrISO_cases hb with hB | ⟨sb, tb, hvb, hpb⟩
  · rw [leBy_eval, cmpVals_desc_nn hA hB]
    constructor
    · intro _
      exact Or.inl hB
    · intro _
      decide
  · rw [leBy_eval, cmpVals_desc_ni hA hvb]
    constructor
    · intro hle
      exact absurd hle (by decide)
    · intro hd
      rcases hd with hd | ⟨sa', ta', sb', tb', hva', _, _, _, _⟩
      · rw [hvb, isNullish_of_str_false] at hd
        cases hd
      · rw [hva', isNullish_of_str_false] at hA
        cases hA
  · rw [leBy_eval, cmpVals_desc_in hva hB]
    constructor
    · intro _
      exact Or.inl hB
    · intro _
      decide
  · rw [leBy_eval, cmpVals_desc_ii hva hvb hpa hpb]
    constructor
    · intro hle
      rw [decide_eq_true_iff] at hle
      exact Or.inr ⟨sa, ta, sb, tb, hva, hpa, hvb, hpb, by omega⟩
    · intro hd
      rcases hd with hd | ⟨sa', ta', sb', tb', hva', hpa', hvb', hpb', hle⟩
      · rw [hvb, isNullish_of_str_false] at hd
        cases hd
      · have hsa : sa' = sa := JValue.str.inj (Option.some.inj (hva'.symm.trans hva))
        have hsb : sb' = sb := JValue.str.inj (Option.some.inj (hvb'.symm.trans hvb))
        subst hsa
        subst hsb
        have hta : ta' = ta := Option.some.inj (hpa'.symm.trans hpa)
        have htb : tb' = tb := Option.some.inj (hpb'.symm.trans hpb)
        subst hta
        subst htb
        rw [decide_eq_true_iff]
        omega

theorem leBy_desc_trans_dom {k : String} {a b c : JValue}
    (ha : nullOrISO (a.getField k) = true) (hb : nullOrISO (b.getField k) = true)
    (hc : nullOrISO (c.getField k) = true) :
    leBy (k, SortDir.desc) a b = true → leBy (k, SortDir.desc) b c = true →
      leBy (k, SortDir.desc) a c = true := by
  intro h1 h2
  rw [leBy_desc_iff ha hb] at h1
  rw [leBy_desc_iff hb hc] at h2
  rw [leBy_desc_iff ha hc]
  rcases h2 with h2 | ⟨sb', tb', sc, tc, hvb', hpb', hvc, hpc, hle2⟩
  · exact Or.inl h2
  · rcases h1 with h1 | ⟨sa, ta, sb, tb, hva, hpa, hvb, hpb, hle1⟩
    · rw [hvb', isNullish_of_str_false] at h1
      cases h1
    · have hsb : sb = sb' := JValue.str.inj (Option.some.inj (hvb.symm.trans hvb'))
      subst hsb
      have htb : tb = tb' := Option.some.inj (hpb.symm.trans hpb')
      subst htb
      exact Or.inr ⟨sa, ta, sc, tc, hva, hpa, hvc, hpc, by omega⟩

theorem leBy_desc_total_dom {k : String} {a b : JValue}
    (ha : nullOrISO (a.getField k) = true) (hb : nullOrISO (b.getField k) = true) :
    leBy (k, SortDir.desc) a b = true ∨ leBy (k, SortDir.desc) b a = true := by
  rw [leBy_desc_iff ha hb, leBy_desc_iff hb ha]
  rcases nullOrISO_cases ha with hA | ⟨sa, ta, hva, hpa⟩ <;>
    rcases nullOrISO_cases hb with hB | ⟨sb, tb, hvb, hpb⟩
  · exact Or.inl (Or.inl hB)
  · exact Or.inr (Or.inl hA)
  · exact Or.inl (Or.inl hB)
  · rcases le_total ta tb with h | h
    · exact Or.inr (Or.inr ⟨sb, tb, sa, ta, hvb, hpb, hva, hpa, h⟩)
    · exact Or.inl (Or.inr ⟨sa, ta, sb, tb, hva, hpa, hvb, hpb, h⟩)

theorem applySorts_singleton (s : SortKey) (l : List JValue) :
    applySorts [s] l = sortPass s l := rfl

/-- C5: under a single descending sort on a key whose values (across the
collection) are all `null` or ISO-date strings, `getEntries` returns the
paginated entries sorted so that the timestamps are non-increasing and
every nullish-valued entry comes after all the dated ones. -/
theorem getEntries_desc_date_sorted (api : LocalApi) (st : ContentState)
    (n : String) (c : Collection) (k : String)
    (filters : Option (List (String × JValue))) (offset limit : Option Nat)
    (incCount : Bool)
    (hreg : lookupCollection api n = some c)
    (hdir : st.dirs.contains c.name = true)
    (hdom : ∀ e ∈ entriesOf st c.name, nullOrISO (e.getField k) = true) :
    getEntries api st (.byName n)
        { includeCount := incCount, includeOpt := none, limit := limit,
          offset := offset, filters := filters, sort := some [(k, SortDir.desc)] }
      = .ok { entries := sortPass (k, SortDir.desc)
                (pagedEntries st c.name filters offset (limit.getD 1000)),
              limit := limit.getD 1000, offset := offset.getD 0,
              count := if incCount then
                some (filteredEntries st c.name filters).length else none } ∧
    (sortPass (k, SortDir.desc)
        (pagedEntries st c.name filters offset (limit.getD 1000))).Pairwise
      (descDateOrder k) := by
  have hres : getCollectionRef api (.byName n) = .ok c := by
    simp [getCollectionRef, hreg]
  have hmem : c.name ∈ st.dirs := by simpa using hdir
  have hdom2 : ∀ x ∈ pagedEntries st c.name filters offset (limit.getD 1000),
      nullOrISO (x.getField k) = true :=
    fun x hx => hdom x (mem_pagedEntries_subset hx)
  constructor
  · simp [getEntries, hres, hmem, applySorts_singleton]
  · have hp : (sortPass (k, SortDir.desc)
        (pagedEntries st c.name filters offset (limit.getD 1000))).Pairwise
        (fun a b => leBy (k, SortDir.desc) a b = true) := by
      apply pairwise_stableSort
      · intro x hx y hy
        exact leBy_desc_total_dom (hdom2 x hx) (hdom2 y hy)
      · intro x hx y hy z hz
        exact leBy_desc_trans_dom (hdom2 x hx) (hdom2 y hy) (hdom2 z hz)
    refine List.Pairwise.imp_of_mem ?_ hp
    intro a b hma hmb hle
    exact (leBy_desc_iff
      (hdom2 a ((mem_stableSort _ a _).mp hma))
      (hdom2 b ((mem_stableSort _ b _).mp hmb))).mp hle

/-- A registry with one collection `c5` with empty schema. -/
def c5Api : LocalApi :=
  { collections := [{ name := "c5", schema := ⟨[]⟩ }], globals := [] }

/-- Three entries whose `d` fields are ISO dates or `null`. -/
def c5State : ContentState :=
  { entries :=
      [(("c5", "e1"), .obj [("d", .str "2021-01-01")]),
       (("c5", "e2"), .obj [("d", .null)]),
       (("c5", "e3"), .obj [("d", .str "2020-06-15T12:00:00Z")])],
    dirs := ["c5"], assets := [] }

/-- Witness for C5 at a concrete collection of dated entries. -/
theorem getEntries_desc_date_sorted_witness :
    getEntries c5Api c5State (.byName "c5")
        { includeCount := false, includeOpt := none, limit := none,
          offset := none, filters := none, sort := some [("d", SortDir.desc)] }
      = .ok { entries := sortPass ("d", SortDir.desc)
                (pagedEntries c5State "c5" none none 1000),
              limit := 1000, offset := 0, count := none } :=
  (getEntries_desc_date_sorted c5Api c5State "c5" { name := "c5", schema := ⟨[]⟩ }
    "d" none none none false (by decide) (by decide) (by decide)).1

end Tyzo
